import Mathlib

/-!
Verification development for the saga execution engine of
`minos_microservice_saga`.

The development shallowly embeds the execution layer of the repository:

* `minos/saga/executions/saga.py` (`SagaExecution`: `execute`, `_execute_one`,
  `_execute_commit`, `rollback`, `raw`, `from_raw`, `__eq__`) — translated
  directly from the source;
* `minos/saga/executions/steps/remote.py` (`RemoteSagaStepExecution`) —
  translated directly from the source.

Collaborating modules that the repository has but whose sources are not
available (the definition layer, the executors, the statuses, the context
codec, the local and conditional step executions, the transaction manager)
are modelled from the specification; every such definition carries a doc
comment starting with `Modelled from the spec:`.

Python exceptions are modelled as explicit `Except`/`Option` error values,
in-place mutation as explicit state threading, and the externally visible
side effects (broker publications, per-step rollback attempts, transaction
finalization) as an event trace returned next to the new state.
-/

namespace MinosSaga

/-- Modelled from the spec: saga identifiers (`uuid.UUID`) are opaque stable
identifiers; the `uuid` library is not part of this repository. -/
abbrev UUID := Nat

/-- Modelled from the spec: a `SagaContext` is a keyed, order-preserving
mapping from identifiers to opaque user payloads. -/
structure SagaContext where
  entries : List (String × String)
deriving DecidableEq

/-- Modelled from the spec: the binary (avro) form of a context. The codec is
external to the sources; the spec requires it to be a round-trippable
serialization, so it is modelled as a bijective wrapper. -/
structure AvroStr where
  decoded : SagaContext
deriving DecidableEq

/-- Modelled from the spec: `SagaContext.avro_str`, the serialized form. -/
def SagaContext.avro_str (c : SagaContext) : AvroStr := AvroStr.mk c

/-- Modelled from the spec: `SagaContext.from_avro_str`, inverse of
`avro_str`. -/
def SagaContext.from_avro_str (s : AvroStr) : SagaContext := s.decoded

/-- Modelled from the spec: a `SagaOperation` (`definitions/operations.py` is
among the sources, but its callbacks are Python callables serialized by their
fully qualified name through a host registry; callbacks are therefore
identified with their stable names). -/
structure SagaOperation where
  callback : String
  parameters : Option SagaContext := none
deriving DecidableEq

/-- Modelled from the spec: a `RemoteSagaStep` definition
(`{on_execute, on_success?, on_error?, on_failure?}`); `on_execute` is
required by builder validation. -/
structure RemoteSagaStep where
  on_execute : SagaOperation
  on_success : Option SagaOperation := none
  on_error : Option SagaOperation := none
  on_failure : Option SagaOperation := none
deriving DecidableEq

/-- Modelled from the spec: a `LocalSagaStep` definition
(`{on_execute, on_failure?}`). -/
structure LocalSagaStep where
  on_execute : SagaOperation
  on_failure : Option SagaOperation := none
deriving DecidableEq

/-- Modelled from the spec: a `ConditionalSagaStep` definition. Its branch
structure (predicates and inner sagas) is abstracted to an identifier: the
claims below depend only on the identity of conditional steps, never on
their branches, and `definitions/steps/conditional.py` is not among the
sources. -/
structure ConditionalSagaStep where
  branchId : Nat
deriving DecidableEq

/-- Modelled from the spec: the `SagaStep` tagged union. -/
inductive SagaStep
  | remote (d : RemoteSagaStep)
  | localStep (d : LocalSagaStep)
  | conditional (d : ConditionalSagaStep)
deriving DecidableEq

/-- Modelled from the spec: a `Saga` definition — an ordered list of steps,
an optional commit operation and the committed flag. -/
structure Saga where
  steps : List SagaStep
  commit_operation : Option SagaOperation := none
  committed : Bool := false
deriving DecidableEq

/-- Modelled from the spec: `Saga.validate` raises unless the saga may be
executed; a saga may be executed only if it is committed (invariant I7). -/
def Saga.validate (s : Saga) : Bool := s.committed

/-- Modelled from the spec: `SagaStatus` (`executions/status.py` is not among
the sources; values and wire strings from the spec). -/
inductive SagaStatus
  | Created | Running | Paused | Finished | Errored
deriving DecidableEq

/-- Modelled from the spec: the wire-stable string of a `SagaStatus`. -/
def SagaStatus.raw : SagaStatus → String
  | .Created => "created"
  | .Running => "running"
  | .Paused => "paused"
  | .Finished => "finished"
  | .Errored => "errored"

/-- Modelled from the spec: `SagaStatus.from_raw`, partial inverse of the
wire string (an unknown string raises in Python, here `none`). -/
def SagaStatus.from_raw (s : String) : Option SagaStatus :=
  if s = "created" then some .Created
  else if s = "running" then some .Running
  else if s = "paused" then some .Paused
  else if s = "finished" then some .Finished
  else if s = "errored" then some .Errored
  else none

/-- Modelled from the spec: `SagaStepStatus` (values as used by
`steps/remote.py` and listed in the spec). -/
inductive SagaStepStatus
  | Created
  | RunningOnExecute
  | FinishedOnExecute
  | PausedByOnExecute
  | ErroredOnExecute
  | ErroredByOnExecute
  | RunningOnSuccess
  | ErroredOnSuccess
  | RunningOnError
  | ErroredOnError
  | Finished
deriving DecidableEq

/-- Modelled from the spec: the wire-stable string of a `SagaStepStatus`. -/
def SagaStepStatus.raw : SagaStepStatus → String
  | .Created => "created"
  | .RunningOnExecute => "running-on-execute"
  | .FinishedOnExecute => "finished-on-execute"
  | .PausedByOnExecute => "paused-by-on-execute"
  | .ErroredOnExecute => "errored-on-execute"
  | .ErroredByOnExecute => "errored-by-on-execute"
  | .RunningOnSuccess => "running-on-success"
  | .ErroredOnSuccess => "errored-on-success"
  | .RunningOnError => "running-on-error"
  | .ErroredOnError => "errored-on-error"
  | .Finished => "finished"

/-- Modelled from the spec: `SagaStepStatus.from_raw`, partial inverse of the
wire string. -/
def SagaStepStatus.from_raw (s : String) : Option SagaStepStatus :=
  if s = "created" then some .Created
  else if s = "running-on-execute" then some .RunningOnExecute
  else if s = "finished-on-execute" then some .FinishedOnExecute
  else if s = "paused-by-on-execute" then some .PausedByOnExecute
  else if s = "errored-on-execute" then some .ErroredOnExecute
  else if s = "errored-by-on-execute" then some .ErroredByOnExecute
  else if s = "running-on-success" then some .RunningOnSuccess
  else if s = "errored-on-success" then some .ErroredOnSuccess
  else if s = "running-on-error" then some .RunningOnError
  else if s = "errored-on-error" then some .ErroredOnError
  else if s = "finished" then some .Finished
  else none

/-- Modelled from the spec: the status carried by a `SagaResponse`
(`SUCCESS | ERROR | SYSTEM_ERROR`). -/
inductive ResponseStatus
  | success | error | systemError
deriving DecidableEq

/-- Modelled from the spec: a `SagaResponse` — an opaque payload plus a
status (the reply of a remote service). -/
structure SagaResponse where
  data : String
  status : ResponseStatus
deriving DecidableEq

/-- Error-message discriminators for the rollback exceptions raised by
`saga.py` and `remote.py`. -/
inductive RollbackMsg
  | nothingToRollback
  | alreadyRolledBack
  | someStepsFailed
  | sagaAlreadyRolledBack
deriving DecidableEq

/-- The exception taxonomy of the engine, one constructor per exception
class observable through the embedded functions.
`pausedStep`, `failedStep` and `rollbackStep` are the three
`SagaStepExecutionException` subclasses (pause signal, failed step, step
rollback error); the remaining constructors are the saga-level errors. -/
inductive SagaError
  | alreadyExecuted
  | pausedStep
  | failedStep
  | rollbackStep (msg : RollbackMsg)
  | rollbackExecution (msg : RollbackMsg)
  | failedCommitCallback
deriving DecidableEq

/-- Whether an error is a `SagaStepExecutionException` (the class caught by
the per-step `try` of `SagaExecution.rollback`). -/
def SagaError.isStepExc : SagaError → Bool
  | .pausedStep => true
  | .failedStep => true
  | .rollbackStep _ => true
  | _ => false

/-- Externally visible side effects of an execution, in order. `send` is a
broker publication performed by the request executor; `stepRollback i f`
records the per-step rollback attempt on `executed_steps[i]` done by
`SagaExecution.rollback` (`f` is whether the attempt raised); `commitTx` and
`rejectTx` are the `TransactionManager` calls. -/
inductive Event
  | send (callback : String)
  | stepRollback (idx : Nat) (failed : Bool)
  | commitTx (count : Nat) (uuid : UUID)
  | rejectTx (uuid : UUID)
deriving DecidableEq

/-- Outcome of the inner saga execution of a conditional step, as seen by
the conditional step execution. -/
inductive CondOutcome
  | paused
  | failed
  | finished (ctx : SagaContext) (innerRemotes : Nat)

/-- Modelled from the spec: the environment abstracting the user callbacks,
the broker and (for conditional steps, whose execution class is not among
the sources) the inner saga execution. `request` tells whether publishing a
request for an operation succeeds; `response` runs a response callback
(`none` is an executor error); `localCall` runs a local callback;
`condExec`/`condRollback` give the outcome of the inner execution of a
conditional step. -/
structure Env where
  request : SagaOperation → SagaContext → Bool
  response : SagaOperation → SagaContext → SagaResponse → Option SagaContext
  localCall : SagaOperation → SagaContext → Option SagaContext
  condExec : ConditionalSagaStep → SagaContext → Option SagaResponse → CondOutcome
  condRollback : ConditionalSagaStep → SagaContext → Except SagaError SagaContext

/-- Modelled from the spec: `RequestExecutor.exec` — nil-safe; resolves and
runs the callback, publishes the produced request through the broker;
callback and broker failures surface as `SagaFailedExecutionStepException`.
Returns the broker events and the possible error. -/
def requestExec (env : Env) (op : Option SagaOperation) (ctx : SagaContext) :
    List Event × Option SagaError :=
  match op with
  | none => ([], none)
  | some op =>
    if env.request op ctx then ([Event.send op.callback], none)
    else ([], some SagaError.failedStep)

/-- Modelled from the spec: `ResponseExecutor.exec` — nil-safe; runs the
callback with the context and the response, returning the new context;
failures surface as `SagaFailedExecutionStepException`. -/
def responseExec (env : Env) (op : Option SagaOperation) (ctx : SagaContext)
    (resp : SagaResponse) : Except SagaError SagaContext :=
  match op with
  | none => Except.ok ctx
  | some op =>
    match env.response op ctx resp with
    | some c => Except.ok c
    | none => Except.error SagaError.failedStep

/-- Modelled from the spec: `LocalExecutor.exec` — nil-safe; runs the
callback with the context, returning the new context; failures surface as
`SagaFailedExecutionStepException`. -/
def localRun (env : Env) (op : Option SagaOperation) (ctx : SagaContext) :
    Except SagaError SagaContext :=
  match op with
  | none => Except.ok ctx
  | some op =>
    match env.localCall op ctx with
    | some c => Except.ok c
    | none => Except.error SagaError.failedStep

/-- The runtime record of one step (`SagaStepExecution`): its definition,
status and `already_rollback` flag. The conditional variant additionally
records how many remote steps its inner execution ran (the inner execution
itself is abstracted away, see `Env`). -/
inductive SagaStepExecution
  | remote (definition : RemoteSagaStep) (status : SagaStepStatus) (already_rollback : Bool)
  | localStep (definition : LocalSagaStep) (status : SagaStepStatus) (already_rollback : Bool)
  | conditional (definition : ConditionalSagaStep) (status : SagaStepStatus)
      (already_rollback : Bool) (innerRemotes : Nat)
deriving DecidableEq

/-- The step definition a step execution was instantiated from. -/
def SagaStepExecution.defn : SagaStepExecution → SagaStep
  | .remote d _ _ => SagaStep.remote d
  | .localStep d _ _ => SagaStep.localStep d
  | .conditional d _ _ _ => SagaStep.conditional d

/-- The `status` field of a step execution. -/
def SagaStepExecution.status : SagaStepExecution → SagaStepStatus
  | .remote _ st _ => st
  | .localStep _ st _ => st
  | .conditional _ st _ _ => st

/-- The `already_rollback` field of a step execution. -/
def SagaStepExecution.already_rollback : SagaStepExecution → Bool
  | .remote _ _ ar => ar
  | .localStep _ _ ar => ar
  | .conditional _ _ ar _ => ar

/-- Modelled from the spec: `SagaStepExecution.from_definition` — a fresh
step execution for a definition step (`Created` status, flag unset, no
inner execution yet). -/
def SagaStepExecution.from_definition : SagaStep → SagaStepExecution
  | .remote d => .remote d SagaStepStatus.Created false
  | .localStep d => .localStep d SagaStepStatus.Created false
  | .conditional d => .conditional d SagaStepStatus.Created false 0

/-- Per-step rollback. The `remote` case is translated from
`RemoteSagaStepExecution.rollback` (`steps/remote.py` lines 109-125): fail
when nothing was executed, fail when already rolled back, otherwise run the
`on_failure` operation through the request executor and set the flag. The
`localStep` and `conditional` cases are modelled from the spec (§4.3.2,
§4.3.3): the same guards, with the compensation run through the local
executor resp. delegated to the inner execution. -/
def SagaStepExecution.rollback (env : Env) (s : SagaStepExecution) (ctx : SagaContext) :
    SagaStepExecution × List Event × Except SagaError SagaContext :=
  match s with
  | .remote d st ar =>
    if st = SagaStepStatus.Created then
      (s, [], Except.error (SagaError.rollbackStep RollbackMsg.nothingToRollback))
    else if ar then
      (s, [], Except.error (SagaError.rollbackStep RollbackMsg.alreadyRolledBack))
    else
      match requestExec env d.on_failure ctx with
      | (evs, none) => (.remote d st true, evs, Except.ok ctx)
      | (evs, some err) => (.remote d st ar, evs, Except.error err)
  | .localStep d st ar =>
    if st = SagaStepStatus.Created then
      (s, [], Except.error (SagaError.rollbackStep RollbackMsg.nothingToRollback))
    else if ar then
      (s, [], Except.error (SagaError.rollbackStep RollbackMsg.alreadyRolledBack))
    else
      match localRun env d.on_failure ctx with
      | Except.ok ctx' => (.localStep d st true, [], Except.ok ctx')
      | Except.error err => (.localStep d st ar, [], Except.error err)
  | .conditional d st ar n =>
    if st = SagaStepStatus.Created then
      (s, [], Except.error (SagaError.rollbackStep RollbackMsg.nothingToRollback))
    else if ar then
      (s, [], Except.error (SagaError.rollbackStep RollbackMsg.alreadyRolledBack))
    else
      match env.condRollback d ctx with
      | Except.ok ctx' => (.conditional d st true n, [], Except.ok ctx')
      | Except.error err => (.conditional d st ar n, [], Except.error err)

/-- The `_execute_on_execute` phase of a remote step (`steps/remote.py`
lines 70-81): skipped unless the status is `Created`; on executor failure
the status becomes `ErroredOnExecute` and the failure is re-raised,
otherwise the status becomes `FinishedOnExecute`. Returns the new status,
the events and the possible error. -/
def remoteExecuteOnExecute (env : Env) (d : RemoteSagaStep) (st : SagaStepStatus)
    (ctx : SagaContext) : SagaStepStatus × List Event × Option SagaError :=
  if st ≠ SagaStepStatus.Created then (st, [], none)
  else
    match requestExec env (some d.on_execute) ctx with
    | (evs, none) => (SagaStepStatus.FinishedOnExecute, evs, none)
    | (evs, some _) => (SagaStepStatus.ErroredOnExecute, evs, some SagaError.failedStep)

/-- Per-step execution. The `remote` case is translated from
`RemoteSagaStepExecution.execute` (`steps/remote.py` lines 43-107): run the
`on_execute` phase; pause when no response is available; dispatch on the
response status (`SYSTEM_ERROR` fails the step; `SUCCESS` runs `on_success`
and `ERROR` runs `on_error` through the response executor, running the
step's own rollback and re-raising on failure); finish otherwise. The
`localStep` and `conditional` cases are modelled from the spec (§4.3.2,
§4.3.3): a local step runs `on_execute` through the local executor and
never pauses; a conditional step mirrors the outcome of its inner
execution (abstracted by `Env.condExec`). -/
def SagaStepExecution.execute (env : Env) (s : SagaStepExecution) (ctx : SagaContext)
    (resp : Option SagaResponse) :
    SagaStepExecution × List Event × Except SagaError SagaContext :=
  match s with
  | .remote d st ar =>
    match remoteExecuteOnExecute env d st ctx with
    | (st₁, evs₁, some err) => (.remote d st₁ ar, evs₁, Except.error err)
    | (_, evs₁, none) =>
      match resp with
      | none => (.remote d SagaStepStatus.PausedByOnExecute ar, evs₁,
          Except.error SagaError.pausedStep)
      | some r =>
        if r.status = ResponseStatus.systemError then
          (.remote d SagaStepStatus.ErroredByOnExecute ar, evs₁,
            Except.error SagaError.failedStep)
        else if r.status = ResponseStatus.success then
          match responseExec env d.on_success ctx r with
          | Except.ok ctx₂ => (.remote d SagaStepStatus.Finished ar, evs₁, Except.ok ctx₂)
          | Except.error err =>
            match SagaStepExecution.rollback env
                (.remote d SagaStepStatus.ErroredOnSuccess ar) ctx with
            | (s₂, evs₂, Except.ok _) => (s₂, evs₁ ++ evs₂, Except.error err)
            | (s₂, evs₂, Except.error err₂) => (s₂, evs₁ ++ evs₂, Except.error err₂)
        else
          match responseExec env d.on_error ctx r with
          | Except.ok ctx₂ => (.remote d SagaStepStatus.Finished ar, evs₁, Except.ok ctx₂)
          | Except.error err =>
            match SagaStepExecution.rollback env
                (.remote d SagaStepStatus.ErroredOnError ar) ctx with
            | (s₂, evs₂, Except.ok _) => (s₂, evs₁ ++ evs₂, Except.error err)
            | (s₂, evs₂, Except.error err₂) => (s₂, evs₁ ++ evs₂, Except.error err₂)
  | .localStep d st ar =>
    if st = SagaStepStatus.Created then
      match localRun env (some d.on_execute) ctx with
      | Except.ok ctx₂ => (.localStep d SagaStepStatus.Finished ar, [], Except.ok ctx₂)
      | Except.error err =>
        (.localStep d SagaStepStatus.ErroredOnExecute ar, [], Except.error err)
    else (.localStep d st ar, [], Except.ok ctx)
  | .conditional d st ar n =>
    if st = SagaStepStatus.Created ∨ st = SagaStepStatus.PausedByOnExecute then
      match env.condExec d ctx resp with
      | CondOutcome.paused => (.conditional d SagaStepStatus.PausedByOnExecute ar n, [],
          Except.error SagaError.pausedStep)
      | CondOutcome.failed => (.conditional d SagaStepStatus.ErroredByOnExecute ar n, [],
          Except.error SagaError.failedStep)
      | CondOutcome.finished ctx₂ m => (.conditional d SagaStepStatus.Finished ar m, [],
          Except.ok ctx₂)
    else (.conditional d st ar n, [], Except.ok ctx)

/-- The top-level coordinator state (`SagaExecution`, `executions/saga.py`
lines 52-81): definition, identifier, context, status, the stack of
executed steps, the currently paused step, the `already_rollback` flag and
the optional user. -/
structure SagaExecution where
  definition : Saga
  uuid : UUID
  context : SagaContext
  status : SagaStatus
  executed_steps : List SagaStepExecution
  paused_step : Option SagaStepExecution
  already_rollback : Bool
  user : Option UUID
deriving DecidableEq

/-- The reversed walk of `SagaExecution.rollback` (`saga.py` lines 236-244):
every executed step's rollback is attempted, last executed first, threading
the context through the successful attempts; a `SagaStepExecutionException`
raised by an attempt is logged and the walk continues, remembering the
failure. The walk is instrumented: each attempt on `executed_steps[i]`
additionally emits `Event.stepRollback i failed`. Returns the updated steps
(in their original order), the final context, the events and the
remembered-failure flag. -/
def rollbackWalk (env : Env) : List SagaStepExecution → Nat → SagaContext →
    List SagaStepExecution × SagaContext × List Event × Bool
  | [], _, ctx => ([], ctx, [], false)
  | s :: rest, i, ctx =>
    let (rest', ctx₁, evs₁, raised₁) := rollbackWalk env rest (i + 1) ctx
    match SagaStepExecution.rollback env s ctx₁ with
    | (s', evs₂, Except.ok ctx₂) =>
      (s' :: rest', ctx₂, evs₁ ++ Event.stepRollback i false :: evs₂, raised₁)
    | (s', evs₂, Except.error _) =>
      (s' :: rest', ctx₁, evs₁ ++ Event.stepRollback i true :: evs₂, true)

/-- Translated from `SagaExecution.rollback` (`saga.py` lines 225-251):
fail immediately when the saga was already rolled back; otherwise attempt
every executed step's rollback in reverse order (best effort), then invoke
`TransactionManager.reject`, then fail when some step rollback failed, and
only otherwise set `already_rollback`. -/
def SagaExecution.rollback (env : Env) (e : SagaExecution) :
    SagaExecution × List Event × Option SagaError :=
  if e.already_rollback then
    (e, [], some (SagaError.rollbackExecution RollbackMsg.sagaAlreadyRolledBack))
  else
    let (steps', ctx', evs, raised) := rollbackWalk env e.executed_steps 0 e.context
    let evs := evs ++ [Event.rejectTx e.uuid]
    if raised then
      ({ e with executed_steps := steps', context := ctx' }, evs,
        some (SagaError.rollbackExecution RollbackMsg.someStepsFailed))
    else
      ({ e with executed_steps := steps', context := ctx', already_rollback := true },
        evs, none)

/-- Translated from `SagaExecution._execute_one` (`saga.py` lines 196-209):
run the step's execute with the saga context; on success store the new
context and append the step to `executed_steps`; on
`SagaFailedExecutionStepException` roll the whole saga back, become
`Errored` and re-raise (an exception raised by that rollback replaces the
original one and skips the status change, exactly as in the source); on
`SagaPausedExecutionStepException` store the paused step, become `Paused`
and re-raise; any other exception propagates untouched. -/
def SagaExecution.executeOne (env : Env) (e : SagaExecution) (step : SagaStepExecution)
    (resp : Option SagaResponse) : SagaExecution × List Event × Option SagaError :=
  match SagaStepExecution.execute env step e.context resp with
  | (step', evs, Except.ok ctx') =>
    ({ e with context := ctx', executed_steps := e.executed_steps ++ [step'] }, evs, none)
  | (_, evs, Except.error SagaError.failedStep) =>
    match SagaExecution.rollback env e with
    | (e₁, evs₂, some exc) => (e₁, evs ++ evs₂, some exc)
    | (e₁, evs₂, none) =>
      ({ e₁ with status := SagaStatus.Errored }, evs ++ evs₂, some SagaError.failedStep)
  | (step', evs, Except.error SagaError.pausedStep) =>
    ({ e with paused_step := some step', status := SagaStatus.Paused }, evs,
      some SagaError.pausedStep)
  | (_, evs, Except.error err) => (e, evs, some err)

/-- The forward phase of `SagaExecution.execute` (`saga.py` lines 188-190):
instantiate and run a fresh step execution, with no response, for each
pending definition step; the first exception stops the loop and
propagates. -/
def SagaExecution.executeForward (env : Env) :
    SagaExecution → List SagaStep → SagaExecution × List Event × Option SagaError
  | e, [] => (e, [], none)
  | e, d :: ds =>
    match SagaExecution.executeOne env e (SagaStepExecution.from_definition d) none with
    | (e₁, evs₁, some exc) => (e₁, evs₁, some exc)
    | (e₁, evs₁, none) =>
      let (e₂, evs₂, exc₂) := SagaExecution.executeForward env e₁ ds
      (e₂, evs₁ ++ evs₂, exc₂)

/-- The number of executed steps that are `RemoteSagaStepExecution`
instances (`saga.py` line 221). -/
def countRemote : List SagaStepExecution → Nat
  | [] => 0
  | SagaStepExecution.remote _ _ _ :: rest => countRemote rest + 1
  | _ :: rest => countRemote rest

/-- Translated from `SagaExecution._execute_commit` (`saga.py` lines
211-223): run the commit operation through the local executor; on
`SagaFailedExecutionStepException` roll the saga back, become `Errored` and
raise `SagaFailedCommitCallbackException` (an exception raised by that
rollback replaces it, as in the source); on success store the returned
context and invoke `TransactionManager.commit` with the number of executed
remote steps and the execution identifier. -/
def SagaExecution.executeCommit (env : Env) (e : SagaExecution) :
    SagaExecution × List Event × Option SagaError :=
  match localRun env e.definition.commit_operation e.context with
  | Except.ok ctx' =>
    ({ e with context := ctx' },
      [Event.commitTx (countRemote e.executed_steps) e.uuid], none)
  | Except.error _ =>
    match SagaExecution.rollback env e with
    | (e₁, evs, some exc) => (e₁, evs, some exc)
    | (e₁, evs, none) =>
      ({ e₁ with status := SagaStatus.Errored }, evs, some SagaError.failedCommitCallback)

/-- Translated from `SagaExecution.execute` (`saga.py` lines 159-194):
fail with `SagaExecutionAlreadyExecutedException` when `Finished`, and when
`Errored` with no response; when `Errored` with a response, log it and
return the context unchanged; otherwise become `Running`, resume the paused
step with the response if there is one (clearing `paused_step` afterwards
unless the status is `Paused` again — the `finally` block), run every
pending definition step, run the commit phase, become `Finished` and return
the context. -/
def SagaExecution.execute (env : Env) (e : SagaExecution) (resp : Option SagaResponse) :
    SagaExecution × List Event × Except SagaError SagaContext :=
  if e.status = SagaStatus.Finished then
    (e, [], Except.error SagaError.alreadyExecuted)
  else if e.status = SagaStatus.Errored then
    match resp with
    | none => (e, [], Except.error SagaError.alreadyExecuted)
    | some _ => (e, [], Except.ok e.context)
  else
    let e₀ : SagaExecution := { e with status := SagaStatus.Running }
    let resumed : SagaExecution × List Event × Option SagaError :=
      match e₀.paused_step with
      | none => (e₀, [], none)
      | some ps =>
        match SagaExecution.executeOne env e₀ ps resp with
        | (e₁, evs₁, exc₁) =>
          (if e₁.status ≠ SagaStatus.Paused then { e₁ with paused_step := none } else e₁,
            evs₁, exc₁)
    match resumed with
    | (e₁, evs₁, some exc) => (e₁, evs₁, Except.error exc)
    | (e₁, evs₁, none) =>
      match SagaExecution.executeForward env e₁
          (e₁.definition.steps.drop e₁.executed_steps.length) with
      | (e₂, evs₂, some exc) => (e₂, evs₁ ++ evs₂, Except.error exc)
      | (e₂, evs₂, none) =>
        match SagaExecution.executeCommit env e₂ with
        | (e₃, evs₃, some exc) => (e₃, evs₁ ++ evs₂ ++ evs₃, Except.error exc)
        | (e₃, evs₃, none) =>
          ({ e₃ with status := SagaStatus.Finished }, evs₁ ++ evs₂ ++ evs₃,
            Except.ok e₃.context)

/-- The raw (snapshot) form of a step execution: the `cls` discriminator is
the constructor, the definition is carried through the (spec-modelled,
bijective) definition codec, the status is its wire string. -/
inductive RawStepExecution
  | remote (definition : RemoteSagaStep) (status : String) (already_rollback : Bool)
  | localStep (definition : LocalSagaStep) (status : String) (already_rollback : Bool)
  | conditional (definition : ConditionalSagaStep) (status : String)
      (already_rollback : Bool) (innerRemotes : Nat)
deriving DecidableEq

/-- Modelled from the spec: `SagaStepExecution.raw` — the canonical mapping
with the `cls` tag, the definition's raw form, the status wire string and
the flag (shape as in the repository's step-execution tests). -/
def SagaStepExecution.raw : SagaStepExecution → RawStepExecution
  | .remote d st ar => RawStepExecution.remote d st.raw ar
  | .localStep d st ar => RawStepExecution.localStep d st.raw ar
  | .conditional d st ar n => RawStepExecution.conditional d st.raw ar n

/-- Modelled from the spec: `SagaStepExecution.from_raw` (the dispatching
classmethod of `steps/abc.py`, not among the sources; the surviving older
`executions/step.py` shows the pattern `current = raw | kwargs` by which a
caller-supplied `definition` keyword overrides the serialized definition).
`override` is that keyword; `none` is returned on an unknown status string
or on a definition override whose kind contradicts the `cls` tag. -/
def SagaStepExecution.from_raw (r : RawStepExecution) (override : Option SagaStep) :
    Option SagaStepExecution :=
  match r with
  | RawStepExecution.remote d stStr ar =>
    match SagaStepStatus.from_raw stStr with
    | none => none
    | some st =>
      match override with
      | none => some (SagaStepExecution.remote d st ar)
      | some (SagaStep.remote d') => some (SagaStepExecution.remote d' st ar)
      | some _ => none
  | RawStepExecution.localStep d stStr ar =>
    match SagaStepStatus.from_raw stStr with
    | none => none
    | some st =>
      match override with
      | none => some (SagaStepExecution.localStep d st ar)
      | some (SagaStep.localStep d') => some (SagaStepExecution.localStep d' st ar)
      | some _ => none
  | RawStepExecution.conditional d stStr ar n =>
    match SagaStepStatus.from_raw stStr with
    | none => none
    | some st =>
      match override with
      | none => some (SagaStepExecution.conditional d st ar n)
      | some (SagaStep.conditional d') => some (SagaStepExecution.conditional d' st ar n)
      | some _ => none

/-- The raw (snapshot) form of a `SagaExecution` (`saga.py` lines 261-276).
The definition travels through the spec-modelled bijective `Saga` codec and
the identifiers through the bijective `str`/`UUID` conversion, so both are
carried as themselves; statuses are wire strings and the context is its
avro form. -/
structure RawSagaExecution where
  definition : Saga
  uuid : UUID
  status : String
  executed_steps : List RawStepExecution
  paused_step : Option RawStepExecution
  context : AvroStr
  already_rollback : Bool
  user : Option UUID
deriving DecidableEq

/-- Translated from the `raw` property of `SagaExecution` (`saga.py` lines
261-276). -/
def SagaExecution.raw (e : SagaExecution) : RawSagaExecution :=
  { definition := e.definition
    uuid := e.uuid
    status := e.status.raw
    executed_steps := e.executed_steps.map SagaStepExecution.raw
    paused_step := e.paused_step.map SagaStepExecution.raw
    context := e.context.avro_str
    already_rollback := e.already_rollback
    user := e.user }

/-- The reconstruction of the executed steps in `SagaExecution.from_raw`
(`saga.py` lines 109-114): `zip(instance.definition.steps, raw
executed_steps)` pairs each serialized step with the corresponding
definition step, which is passed as the overriding `definition` keyword;
`zip` silently stops at the shorter list. -/
def fromRawSteps : List SagaStep → List RawStepExecution →
    Option (List SagaStepExecution)
  | _, [] => some []
  | [], _ :: _ => some []
  | d :: ds, r :: rs =>
    match SagaStepExecution.from_raw r (some d) with
    | none => none
    | some s =>
      match fromRawSteps ds rs with
      | none => none
      | some rest => some (s :: rest)

/-- Translated from `SagaExecution.from_raw` (`saga.py` lines 83-116):
decode every component (the constructor re-validates the definition, so a
non-committed definition fails), build the instance with an empty executed
stack — the raw `executed_steps` entry is ignored by the constructor — and
then append the executed steps reconstructed from the raw list zipped with
the definition steps. The paused step is decoded without a definition
override. -/
def SagaExecution.from_raw (r : RawSagaExecution) : Option SagaExecution :=
  if ¬ r.definition.validate then none
  else
    match SagaStatus.from_raw r.status with
    | none => none
    | some status =>
      match
        (match r.paused_step with
          | none => some none
          | some p =>
            match SagaStepExecution.from_raw p none with
            | none => none
            | some s => some (some s)) with
      | none => none
      | some paused =>
        match fromRawSteps r.definition.steps r.executed_steps with
        | none => none
        | some steps =>
          some
            { definition := r.definition
              uuid := r.uuid
              context := r.context.decoded
              status := status
              executed_steps := steps
              paused_step := paused
              already_rollback := r.already_rollback
              user := r.user }

/-- Translated from `SagaExecution.__eq__`/`__iter__` (`saga.py` lines
278-290): two executions are equal iff they have the same type (always the
case here) and agree on definition, uuid, status, executed steps, context,
`already_rollback` and user; `paused_step` is not part of the tuple. -/
def SagaExecution.eqPy (a b : SagaExecution) : Bool :=
  decide (a.definition = b.definition) && decide (a.uuid = b.uuid) &&
    decide (a.status = b.status) && decide (a.executed_steps = b.executed_steps) &&
    decide (a.context = b.context) &&
    decide (a.already_rollback = b.already_rollback) && decide (a.user = b.user)

/-- The positions of the per-step rollback attempts recorded in a trace, in
order. -/
def rollbackAttempts (evs : List Event) : List Nat :=
  evs.filterMap fun ev =>
    match ev with
    | Event.stepRollback i _ => some i
    | _ => none

/-- Whether a trace records a per-step rollback attempt that raised. -/
def hasFailedAttempt (evs : List Event) : Bool :=
  evs.any fun ev =>
    match ev with
    | Event.stepRollback _ failed => failed
    | _ => false

/-- The `TransactionManager.commit` calls recorded in a trace, in order. -/
def commitCalls (evs : List Event) : List Event :=
  evs.filter fun ev =>
    match ev with
    | Event.commitTx _ _ => true
    | _ => false

/-- Whether a trace consists of broker publications only (no rollback
attempts, no transaction-manager calls). Step-level operations only ever
publish. -/
def onlySends (evs : List Event) : Bool :=
  evs.all fun ev =>
    match ev with
    | Event.send _ => true
    | _ => false

/-- Invariant I2 of the spec: the paused step exists exactly when the
status is `Paused`, and it corresponds to the next pending definition step
(`definition.steps[len(executed_steps)]`). -/
def pausedInv (e : SagaExecution) : Prop :=
  (e.paused_step.isSome ↔ e.status = SagaStatus.Paused) ∧
  ∀ ps, e.paused_step = some ps →
    e.definition.steps[e.executed_steps.length]? = some ps.defn

instance {ε α : Type _} [DecidableEq ε] [DecidableEq α] : DecidableEq (Except ε α) :=
  fun a b =>
    match a, b with
    | Except.ok x, Except.ok y =>
      if h : x = y then Decidable.isTrue (by rw [h])
      else Decidable.isFalse (by simp [h])
    | Except.error x, Except.error y =>
      if h : x = y then Decidable.isTrue (by rw [h])
      else Decidable.isFalse (by simp [h])
    | Except.ok _, Except.error _ => Decidable.isFalse (by simp)
    | Except.error _, Except.ok _ => Decidable.isFalse (by simp)

/-! Concrete fixtures, used by the witnesses and counterexamples below.
`demoEnv` publishes every request except the one of the `failcomp`
callback (whose callback raises), fails the `boom` response/local
callbacks, and extends the context with a `(callback, payload)` entry on
every other response. -/

/-- A concrete environment for witnesses and counterexamples. -/
def demoEnv : Env :=
  { request := fun op _ => op.callback != "failcomp"
    response := fun op ctx r =>
      if op.callback = "boom" then none
      else some (SagaContext.mk (ctx.entries ++ [(op.callback, r.data)]))
    localCall := fun op ctx => if op.callback = "boom" then none else some ctx
    condExec := fun _ ctx _ => CondOutcome.finished ctx 0
    condRollback := fun _ ctx => Except.ok ctx }

/-- A remote step with success handler and compensation. -/
def orderStep : RemoteSagaStep :=
  { on_execute := { callback := "send_create_order" }
    on_success := some { callback := "handle_order_success" }
    on_failure := some { callback := "send_delete_order" } }

/-- A remote step with a success handler only. -/
def ticketStep : RemoteSagaStep :=
  { on_execute := { callback := "send_create_ticket" }
    on_success := some { callback := "handle_ticket_success" } }

/-- A remote step whose success handler raises and which has a
compensation. -/
def boomStep : RemoteSagaStep :=
  { on_execute := { callback := "send_create_ticket" }
    on_success := some { callback := "boom" }
    on_failure := some { callback := "send_delete_ticket" } }

/-- A remote step whose compensation callback raises under `demoEnv`. -/
def failCompStep : RemoteSagaStep :=
  { on_execute := { callback := "send_create_stock" }
    on_failure := some { callback := "failcomp" } }

/-- The empty context. -/
def emptyCtx : SagaContext := SagaContext.mk []

/-- A committed two-remote-step saga (the S1 scenario of the spec). -/
def demoSaga : Saga :=
  { steps := [SagaStep.remote orderStep, SagaStep.remote ticketStep], committed := true }

/-- A fresh execution of `demoSaga`. -/
def demoExecution : SagaExecution :=
  { definition := demoSaga, uuid := 7, context := emptyCtx
    status := SagaStatus.Created, executed_steps := [], paused_step := none
    already_rollback := false, user := none }

/-- An execution with three executed remote steps, the middle one with a
raising compensation, ready to be rolled back. -/
def walkExecution : SagaExecution :=
  { definition :=
      { steps := [SagaStep.remote orderStep, SagaStep.remote failCompStep,
          SagaStep.remote ticketStep]
        committed := true }
    uuid := 1, context := emptyCtx
    status := SagaStatus.Running
    executed_steps :=
      [SagaStepExecution.remote orderStep SagaStepStatus.Finished false,
        SagaStepExecution.remote failCompStep SagaStepStatus.Finished false,
        SagaStepExecution.remote ticketStep SagaStepStatus.Finished false]
    paused_step := none, already_rollback := false, user := none }

/-- A paused execution whose saga-level `already_rollback` flag is set (the
state reached by calling `rollback()` on a paused execution, e.g. on an
external timeout). -/
def rolledBackPausedExecution : SagaExecution :=
  { definition := { steps := [SagaStep.remote ticketStep], committed := true }
    uuid := 3, context := emptyCtx
    status := SagaStatus.Paused, executed_steps := []
    paused_step :=
      some (SagaStepExecution.remote ticketStep SagaStepStatus.PausedByOnExecute false)
    already_rollback := true, user := none }

/-- An execution paused on `boomStep` after `orderStep` completed. -/
def cascadeExecution : SagaExecution :=
  { definition :=
      { steps := [SagaStep.remote orderStep, SagaStep.remote boomStep], committed := true }
    uuid := 8, context := emptyCtx
    status := SagaStatus.Paused
    executed_steps := [SagaStepExecution.remote orderStep SagaStepStatus.Finished false]
    paused_step :=
      some (SagaStepExecution.remote boomStep SagaStepStatus.PausedByOnExecute false)
    already_rollback := false, user := none }

/-- A successful response carrying a payload. -/
def okResponse : SagaResponse := { data := "ticket", status := ResponseStatus.success }

/-- An `ERROR`-status response carrying a payload. -/
def errResponse : SagaResponse := { data := "ticket", status := ResponseStatus.error }

/-- A remote step whose error handler raises and which has a
compensation. -/
def boomErrStep : RemoteSagaStep :=
  { on_execute := { callback := "send_create_ticket" }
    on_error := some { callback := "boom" }
    on_failure := some { callback := "send_delete_ticket" } }

/-- A finished execution of `demoSaga`. -/
def finishedExecution : SagaExecution :=
  { demoExecution with status := SagaStatus.Finished }

/-- An errored execution of `demoSaga`. -/
def erroredExecution : SagaExecution :=
  { demoExecution with status := SagaStatus.Errored, already_rollback := true }

/-- A mid-run execution used by the round-trip witness: one executed step,
paused on the second, with a user. -/
def snapshotExecution : SagaExecution :=
  { definition := demoSaga, uuid := 7
    context := SagaContext.mk [("handle_order_success", "order")]
    status := SagaStatus.Paused
    executed_steps := [SagaStepExecution.remote orderStep SagaStepStatus.Finished false]
    paused_step :=
      some (SagaStepExecution.remote ticketStep SagaStepStatus.PausedByOnExecute false)
    already_rollback := false, user := some 21 }

/-! Helper lemmas. -/

theorem sagaStatus_roundtrip (s : SagaStatus) : SagaStatus.from_raw s.raw = some s := by
  cases s <;> rfl

theorem sagaStepStatus_roundtrip (s : SagaStepStatus) :
    SagaStepStatus.from_raw s.raw = some s := by
  cases s <;> rfl

theorem onlySends_append (a b : List Event) :
    onlySends (a ++ b) = (onlySends a && onlySends b) := by
  simp [onlySends, List.all_append]

theorem rollbackAttempts_of_onlySends (evs : List Event) (h : onlySends evs = true) :
    rollbackAttempts evs = [] := by
  induction evs with
  | nil => rfl
  | cons ev rest ih =>
    rw [onlySends, List.all_cons, Bool.and_eq_true] at h
    have hrest : rollbackAttempts rest = [] := ih (by simpa [onlySends] using h.2)
    cases ev with
    | send cb => simpa [rollbackAttempts, List.filterMap_cons] using hrest
    | stepRollback i f => simp at h
    | commitTx n u => simp at h
    | rejectTx u => simp at h

theorem hasFailedAttempt_of_onlySends (evs : List Event) (h : onlySends evs = true) :
    hasFailedAttempt evs = false := by
  induction evs with
  | nil => rfl
  | cons ev rest ih =>
    rw [onlySends, List.all_cons, Bool.and_eq_true] at h
    have hrest : hasFailedAttempt rest = false := ih (by simpa [onlySends] using h.2)
    cases ev with
    | send cb => simpa [hasFailedAttempt, List.any_cons] using hrest
    | stepRollback i f => simp at h
    | commitTx n u => simp at h
    | rejectTx u => simp at h

theorem commitCalls_of_onlySends (evs : List Event) (h : onlySends evs = true) :
    commitCalls evs = [] := by
  induction evs with
  | nil => rfl
  | cons ev rest ih =>
    rw [onlySends, List.all_cons, Bool.and_eq_true] at h
    have hrest : commitCalls rest = [] := ih (by simpa [onlySends] using h.2)
    cases ev with
    | send cb => simpa [commitCalls, List.filter_cons] using hrest
    | stepRollback i f => simp at h
    | commitTx n u => simp at h
    | rejectTx u => simp at h

theorem onlySends_requestExec (env : Env) (op : Option SagaOperation) (ctx : SagaContext) :
    onlySends (requestExec env op ctx).1 = true := by
  cases op with
  | none => rfl
  | some op =>
    simp only [requestExec]
    split <;> rfl

theorem onlySends_step_rollback (env : Env) (s : SagaStepExecution) (ctx : SagaContext) :
    onlySends (SagaStepExecution.rollback env s ctx).2.1 = true := by
  cases s with
  | remote d st ar =>
    simp only [SagaStepExecution.rollback]
    split
    · rfl
    · split
      · rfl
      · rcases h : requestExec env d.on_failure ctx with ⟨evs, exc⟩
        have := onlySends_requestExec env d.on_failure ctx
        rw [h] at this
        cases exc <;> simpa [h] using this
  | localStep d st ar =>
    simp only [SagaStepExecution.rollback]
    split
    · rfl
    · split
      · rfl
      · cases localRun env d.on_failure ctx <;> rfl
  | conditional d st ar n =>
    simp only [SagaStepExecution.rollback]
    split
    · rfl
    · split
      · rfl
      · cases env.condRollback d ctx <;> rfl

theorem onlySends_step_execute (env : Env) (s : SagaStepExecution) (ctx : SagaContext)
    (resp : Option SagaResponse) :
    onlySends (SagaStepExecution.execute env s ctx resp).2.1 = true := by
  cases s with
  | remote d st ar =>
    rcases h : remoteExecuteOnExecute env d st ctx with ⟨st₁, evs₁, exc₁⟩
    have hoe : onlySends evs₁ = true := by
      have hall : onlySends (remoteExecuteOnExecute env d st ctx).2.1 = true := by
        have hreq : onlySends (requestExec env (some d.on_execute) ctx).1 = true :=
          onlySends_requestExec env (some d.on_execute) ctx
        simp only [remoteExecuteOnExecute]
        split
        · rfl
        · rcases hq : requestExec env (some d.on_execute) ctx with ⟨evs, exc⟩
          rw [hq] at hreq
          cases exc <;> simpa using hreq
      rw [h] at hall
      exact hall
    cases exc₁ with
    | some err => simp [SagaStepExecution.execute, h, hoe]
    | none =>
      cases resp with
      | none => simp [SagaStepExecution.execute, h, hoe]
      | some r =>
        by_cases hsys : r.status = ResponseStatus.systemError
        · simp [SagaStepExecution.execute, h, hsys, hoe]
        · by_cases hsucc : r.status = ResponseStatus.success
          · rcases hre : responseExec env d.on_success ctx r with err | ctx₂
            · rcases hrb : SagaStepExecution.rollback env
                  (SagaStepExecution.remote d SagaStepStatus.ErroredOnSuccess ar) ctx with
                ⟨s₂, evs₂, rres⟩
              have h2 := onlySends_step_rollback env
                (SagaStepExecution.remote d SagaStepStatus.ErroredOnSuccess ar) ctx
              rw [hrb] at h2
              have h2' : onlySends evs₂ = true := h2
              cases rres <;>
                simp [SagaStepExecution.execute, h, hsys, hsucc, hre, hrb,
                  onlySends_append, hoe, h2']
            · simp [SagaStepExecution.execute, h, hsys, hsucc, hre, hoe]
          · rcases hre : responseExec env d.on_error ctx r with err | ctx₂
            · rcases hrb : SagaStepExecution.rollback env
                  (SagaStepExecution.remote d SagaStepStatus.ErroredOnError ar) ctx with
                ⟨s₂, evs₂, rres⟩
              have h2 := onlySends_step_rollback env
                (SagaStepExecution.remote d SagaStepStatus.ErroredOnError ar) ctx
              rw [hrb] at h2
              have h2' : onlySends evs₂ = true := h2
              cases rres <;>
                simp [SagaStepExecution.execute, h, hsys, hsucc, hre, hrb,
                  onlySends_append, hoe, h2']
            · simp [SagaStepExecution.execute, h, hsys, hsucc, hre, hoe]
  | localStep d st ar =>
    simp only [SagaStepExecution.execute]
    split
    · cases localRun env (some d.on_execute) ctx <;> rfl
    · rfl
  | conditional d st ar n =>
    simp only [SagaStepExecution.execute]
    split
    · cases env.condExec d ctx resp <;> rfl
    · rfl

theorem rollbackWalk_length (env : Env) (steps : List SagaStepExecution) (i : Nat)
    (ctx : SagaContext) : (rollbackWalk env steps i ctx).1.length = steps.length := by
  induction steps generalizing i ctx with
  | nil => rfl
  | cons s rest ih =>
    rcases hW : rollbackWalk env rest (i + 1) ctx with ⟨rest', ctx₁, evs₁, raised₁⟩
    rcases hR : SagaStepExecution.rollback env s ctx₁ with ⟨s', evs₂, r⟩
    have hlen := ih (i + 1) ctx
    rw [hW] at hlen
    cases r <;> simp [rollbackWalk, hW, hR] <;> simpa using hlen

theorem rollbackAttempts_append (a b : List Event) :
    rollbackAttempts (a ++ b) = rollbackAttempts a ++ rollbackAttempts b := by
  simp [rollbackAttempts, List.filterMap_append]

theorem rollbackAttempts_cons_stepRollback (i : Nat) (f : Bool) (evs : List Event) :
    rollbackAttempts (Event.stepRollback i f :: evs) = i :: rollbackAttempts evs := by
  simp [rollbackAttempts, List.filterMap_cons]

theorem hasFailedAttempt_append (a b : List Event) :
    hasFailedAttempt (a ++ b) = (hasFailedAttempt a || hasFailedAttempt b) := by
  simp [hasFailedAttempt, List.any_append]

theorem hasFailedAttempt_cons_stepRollback (i : Nat) (f : Bool) (evs : List Event) :
    hasFailedAttempt (Event.stepRollback i f :: evs) = (f || hasFailedAttempt evs) := by
  simp [hasFailedAttempt, List.any_cons]

theorem commitCalls_append (a b : List Event) :
    commitCalls (a ++ b) = commitCalls a ++ commitCalls b := by
  simp [commitCalls, List.filter_append]

theorem commitCalls_cons_stepRollback (i : Nat) (f : Bool) (evs : List Event) :
    commitCalls (Event.stepRollback i f :: evs) = commitCalls evs := by
  simp [commitCalls, List.filter_cons]

theorem rollbackWalk_attempts (env : Env) (steps : List SagaStepExecution) (i : Nat)
    (ctx : SagaContext) :
    rollbackAttempts (rollbackWalk env steps i ctx).2.2.1 =
      (List.range' i steps.length).reverse := by
  induction steps generalizing i ctx with
  | nil => rfl
  | cons s rest ih =>
    rcases hW : rollbackWalk env rest (i + 1) ctx with ⟨rest', ctx₁, evs₁, raised₁⟩
    rcases hR : SagaStepExecution.rollback env s ctx₁ with ⟨s', evs₂, r⟩
    have hih := ih (i + 1) ctx
    rw [hW] at hih
    have h2 := onlySends_step_rollback env s ctx₁
    rw [hR] at h2
    have h2' : rollbackAttempts evs₂ = [] :=
      rollbackAttempts_of_onlySends evs₂ h2
    cases r with
    | ok ctx₂ =>
      simp only [rollbackWalk, hW, hR]
      rw [rollbackAttempts_append, rollbackAttempts_cons_stepRollback, hih, h2',
        List.length_cons, List.range'_succ]
      simp
    | error err =>
      simp only [rollbackWalk, hW, hR]
      rw [rollbackAttempts_append, rollbackAttempts_cons_stepRollback, hih, h2',
        List.length_cons, List.range'_succ]
      simp

theorem rollbackWalk_raised (env : Env) (steps : List SagaStepExecution) (i : Nat)
    (ctx : SagaContext) :
    (rollbackWalk env steps i ctx).2.2.2 =
      hasFailedAttempt (rollbackWalk env steps i ctx).2.2.1 := by
  induction steps generalizing i ctx with
  | nil => rfl
  | cons s rest ih =>
    rcases hW : rollbackWalk env rest (i + 1) ctx with ⟨rest', ctx₁, evs₁, raised₁⟩
    rcases hR : SagaStepExecution.rollback env s ctx₁ with ⟨s', evs₂, r⟩
    have hih := ih (i + 1) ctx
    rw [hW] at hih
    have h2 := onlySends_step_rollback env s ctx₁
    rw [hR] at h2
    have h2' : hasFailedAttempt evs₂ = false :=
      hasFailedAttempt_of_onlySends evs₂ h2
    have hih' : raised₁ = hasFailedAttempt evs₁ := hih
    cases r with
    | ok ctx₂ =>
      simp only [rollbackWalk, hW, hR]
      rw [hasFailedAttempt_append, hasFailedAttempt_cons_stepRollback, h2']
      simp [hih']
    | error err =>
      simp only [rollbackWalk, hW, hR]
      rw [hasFailedAttempt_append, hasFailedAttempt_cons_stepRollback, h2']
      simp

theorem rollbackWalk_commitCalls (env : Env) (steps : List SagaStepExecution) (i : Nat)
    (ctx : SagaContext) :
    commitCalls (rollbackWalk env steps i ctx).2.2.1 = [] := by
  induction steps generalizing i ctx with
  | nil => rfl
  | cons s rest ih =>
    rcases hW : rollbackWalk env rest (i + 1) ctx with ⟨rest', ctx₁, evs₁, raised₁⟩
    rcases hR : SagaStepExecution.rollback env s ctx₁ with ⟨s', evs₂, r⟩
    have hih := ih (i + 1) ctx
    rw [hW] at hih
    have h2 := onlySends_step_rollback env s ctx₁
    rw [hR] at h2
    have h2' : commitCalls evs₂ = [] := commitCalls_of_onlySends evs₂ h2
    cases r with
    | ok ctx₂ =>
      simp only [rollbackWalk, hW, hR]
      rw [commitCalls_append, commitCalls_cons_stepRollback, hih, h2']
      rfl
    | error err =>
      simp only [rollbackWalk, hW, hR]
      rw [commitCalls_append, commitCalls_cons_stepRollback, hih, h2']
      rfl

/-! Claim theorems. -/

/-- C1: on a `SagaExecution` whose `already_rollback` flag is still false,
`rollback()` attempts the per-step rollback exactly once for each of the N
executed steps, in reverse order of their execution, regardless of
per-step failures; afterwards `TransactionManager.reject` is invoked; and
the call raises `SagaRollbackExecutionException` iff at least one per-step
rollback raised. -/
theorem rollback_exhaustive (env : Env) (e : SagaExecution) (e' : SagaExecution)
    (evs : List Event) (exc : Option SagaError)
    (h : e.already_rollback = false)
    (heq : SagaExecution.rollback env e = (e', evs, exc)) :
    (∃ evs₀, evs = evs₀ ++ [Event.rejectTx e.uuid] ∧
      rollbackAttempts evs₀ = (List.range e.executed_steps.length).reverse) ∧
    ((exc ≠ none) ↔ hasFailedAttempt evs = true) ∧
    (exc = none ∨ exc = some (SagaError.rollbackExecution RollbackMsg.someStepsFailed)) := by
  rcases hW : rollbackWalk env e.executed_steps 0 e.context with ⟨steps', ctx', wEvs, raised⟩
  have hA := rollbackWalk_attempts env e.executed_steps 0 e.context
  have hRz := rollbackWalk_raised env e.executed_steps 0 e.context
  rw [hW] at hA hRz
  have hA' : rollbackAttempts wEvs = (List.range e.executed_steps.length).reverse := by
    rw [List.range_eq_range']; exact hA
  have hR' : raised = hasFailedAttempt wEvs := hRz
  have hrej : hasFailedAttempt (wEvs ++ [Event.rejectTx e.uuid]) = hasFailedAttempt wEvs := by
    rw [hasFailedAttempt_append]
    simp [hasFailedAttempt]
  simp only [SagaExecution.rollback, h, hW] at heq
  cases raised with
  | false =>
    simp only [Bool.false_eq_true, if_false] at heq
    have hevs : wEvs ++ [Event.rejectTx e.uuid] = evs :=
      congrArg (fun t => t.2.1) heq
    have hexc : (none : Option SagaError) = exc :=
      congrArg (fun t => t.2.2) heq
    subst hevs
    subst hexc
    refine ⟨⟨wEvs, rfl, hA'⟩, ?_, Or.inl rfl⟩
    rw [hrej, ← hR']
    simp
  | true =>
    simp only [if_true] at heq
    have hevs : wEvs ++ [Event.rejectTx e.uuid] = evs :=
      congrArg (fun t => t.2.1) heq
    have hexc :
        (some (SagaError.rollbackExecution RollbackMsg.someStepsFailed) :
          Option SagaError) = exc :=
      congrArg (fun t => t.2.2) heq
    subst hevs
    subst hexc
    refine ⟨⟨wEvs, rfl, hA'⟩, ?_, Or.inr rfl⟩
    rw [hrej, ← hR']
    simp

/-- Witness for C1: the rollback of `walkExecution` (three executed remote
steps, the middle compensation raising) under `demoEnv`. -/
theorem rollback_exhaustive_witness :
    (∃ evs₀, (SagaExecution.rollback demoEnv walkExecution).2.1
        = evs₀ ++ [Event.rejectTx walkExecution.uuid] ∧
      rollbackAttempts evs₀ = (List.range walkExecution.executed_steps.length).reverse) ∧
    (((SagaExecution.rollback demoEnv walkExecution).2.2 ≠ none) ↔
      hasFailedAttempt (SagaExecution.rollback demoEnv walkExecution).2.1 = true) ∧
    ((SagaExecution.rollback demoEnv walkExecution).2.2 = none ∨
      (SagaExecution.rollback demoEnv walkExecution).2.2
        = some (SagaError.rollbackExecution RollbackMsg.someStepsFailed)) :=
  rollback_exhaustive demoEnv walkExecution
    (SagaExecution.rollback demoEnv walkExecution).1
    (SagaExecution.rollback demoEnv walkExecution).2.1
    (SagaExecution.rollback demoEnv walkExecution).2.2
    (by decide) rfl

/-- C6: once `already_rollback` is true, any further `rollback()` call
raises `SagaRollbackExecutionException` immediately: the state is
untouched and the trace is empty — no compensation and no broker or
transaction-manager operation happens. -/
theorem rollback_idempotent_terminal (env : Env) (e : SagaExecution)
    (h : e.already_rollback = true) :
    SagaExecution.rollback env e =
      (e, [], some (SagaError.rollbackExecution RollbackMsg.sagaAlreadyRolledBack)) := by
  simp [SagaExecution.rollback, h]

/-- Witness for C6 at a concrete rolled-back execution. -/
theorem rollback_idempotent_terminal_witness :
    SagaExecution.rollback demoEnv rolledBackPausedExecution =
      (rolledBackPausedExecution, [],
        some (SagaError.rollbackExecution RollbackMsg.sagaAlreadyRolledBack)) :=
  rollback_idempotent_terminal demoEnv rolledBackPausedExecution rfl

/-- C4: `execute` raises `SagaExecutionAlreadyExecutedException` when the
status is `Finished`, and when it is `Errored` with no response; when the
status is `Errored` and a response is supplied, it returns the current
context with the state unchanged and an empty trace (no step execution, no
rollback, no field change). -/
theorem execute_status_guards (env : Env) (e : SagaExecution)
    (resp : Option SagaResponse) :
    (e.status = SagaStatus.Finished →
      SagaExecution.execute env e resp = (e, [], Except.error SagaError.alreadyExecuted)) ∧
    (e.status = SagaStatus.Errored → resp = none →
      SagaExecution.execute env e resp = (e, [], Except.error SagaError.alreadyExecuted)) ∧
    (e.status = SagaStatus.Errored → ∀ r, resp = some r →
      SagaExecution.execute env e resp = (e, [], Except.ok e.context)) := by
  refine ⟨fun hF => ?_, fun hE hn => ?_, fun hE r hr => ?_⟩
  · simp [SagaExecution.execute, hF]
  · simp [SagaExecution.execute, hE, hn]
  · simp [SagaExecution.execute, hE, hr]

/-- Witness for C4 at concrete finished and errored executions. -/
theorem execute_status_guards_witness :
    SagaExecution.execute demoEnv finishedExecution none
      = (finishedExecution, [], Except.error SagaError.alreadyExecuted) ∧
    SagaExecution.execute demoEnv erroredExecution none
      = (erroredExecution, [], Except.error SagaError.alreadyExecuted) ∧
    SagaExecution.execute demoEnv erroredExecution (some okResponse)
      = (erroredExecution, [], Except.ok erroredExecution.context) :=
  ⟨(execute_status_guards demoEnv finishedExecution none).1 rfl,
    (execute_status_guards demoEnv erroredExecution none).2.1 rfl rfl,
    (execute_status_guards demoEnv erroredExecution (some okResponse)).2.2 rfl
      okResponse rfl⟩

/-- C7: a remote step execution's `rollback(context)` fails with
`SagaRollbackExecutionStepException` when the status is `Created` and when
`already_rollback` is set; otherwise it runs `on_failure` through the
request executor (with the published events as its trace, and as a no-op
with an empty trace when `on_failure` is nil), sets `already_rollback` and
returns the context. -/
theorem remote_rollback_contract (env : Env) (d : RemoteSagaStep)
    (st : SagaStepStatus) (ar : Bool) (ctx : SagaContext) :
    (st = SagaStepStatus.Created →
      SagaStepExecution.rollback env (SagaStepExecution.remote d st ar) ctx
        = (SagaStepExecution.remote d st ar, [],
            Except.error (SagaError.rollbackStep RollbackMsg.nothingToRollback))) ∧
    (st ≠ SagaStepStatus.Created → ar = true →
      SagaStepExecution.rollback env (SagaStepExecution.remote d st ar) ctx
        = (SagaStepExecution.remote d st ar, [],
            Except.error (SagaError.rollbackStep RollbackMsg.alreadyRolledBack))) ∧
    (st ≠ SagaStepStatus.Created → ar = false →
      (requestExec env d.on_failure ctx).2 = none →
      SagaStepExecution.rollback env (SagaStepExecution.remote d st ar) ctx
        = (SagaStepExecution.remote d st true, (requestExec env d.on_failure ctx).1,
            Except.ok ctx)) ∧
    (st ≠ SagaStepStatus.Created → ar = false → d.on_failure = none →
      SagaStepExecution.rollback env (SagaStepExecution.remote d st ar) ctx
        = (SagaStepExecution.remote d st true, [], Except.ok ctx)) := by
  refine ⟨fun hc => ?_, fun hc har => ?_, fun hc har hq => ?_, fun hc har hn => ?_⟩
  · simp [SagaStepExecution.rollback, hc]
  · simp [SagaStepExecution.rollback, hc, har]
  · rcases hreq : requestExec env d.on_failure ctx with ⟨evs, exc⟩
    have hexc : exc = none := by
      have : (evs, exc).2 = none := hreq ▸ hq
      simpa using this
    subst hexc
    simp [SagaStepExecution.rollback, hc, har, hreq]
  · simp [SagaStepExecution.rollback, hc, har, hn, requestExec]

/-- Witness for C7 at `demoEnv` with concrete steps and statuses. -/
theorem remote_rollback_contract_witness :
    SagaStepExecution.rollback demoEnv
        (SagaStepExecution.remote orderStep SagaStepStatus.Created false) emptyCtx
      = (SagaStepExecution.remote orderStep SagaStepStatus.Created false, [],
          Except.error (SagaError.rollbackStep RollbackMsg.nothingToRollback)) ∧
    SagaStepExecution.rollback demoEnv
        (SagaStepExecution.remote orderStep SagaStepStatus.Finished true) emptyCtx
      = (SagaStepExecution.remote orderStep SagaStepStatus.Finished true, [],
          Except.error (SagaError.rollbackStep RollbackMsg.alreadyRolledBack)) ∧
    SagaStepExecution.rollback demoEnv
        (SagaStepExecution.remote orderStep SagaStepStatus.FinishedOnExecute false) emptyCtx
      = (SagaStepExecution.remote orderStep SagaStepStatus.FinishedOnExecute true,
          (requestExec demoEnv orderStep.on_failure emptyCtx).1, Except.ok emptyCtx) ∧
    SagaStepExecution.rollback demoEnv
        (SagaStepExecution.remote ticketStep SagaStepStatus.Finished false) emptyCtx
      = (SagaStepExecution.remote ticketStep SagaStepStatus.Finished true, [],
          Except.ok emptyCtx) :=
  ⟨(remote_rollback_contract demoEnv orderStep SagaStepStatus.Created false emptyCtx).1
      rfl,
    (remote_rollback_contract demoEnv orderStep SagaStepStatus.Finished true emptyCtx).2.1
      (by decide) rfl,
    (remote_rollback_contract demoEnv orderStep SagaStepStatus.FinishedOnExecute false
        emptyCtx).2.2.1 (by decide) rfl (by decide),
    (remote_rollback_contract demoEnv ticketStep SagaStepStatus.Finished false
        emptyCtx).2.2.2 (by decide) rfl rfl⟩

/-- C10: the Python equality of `SagaExecution` compares exactly the tuple
(definition, uuid, status, executed_steps, context, already_rollback,
user); `paused_step` is ignored, so any two executions differing only in
`paused_step` compare equal. -/
theorem eqPy_ignores_paused_step (a b : SagaExecution) :
    (SagaExecution.eqPy a b = true ↔
      (a.definition = b.definition ∧ a.uuid = b.uuid ∧ a.status = b.status ∧
        a.executed_steps = b.executed_steps ∧ a.context = b.context ∧
        a.already_rollback = b.already_rollback ∧ a.user = b.user)) ∧
    (∀ p q, SagaExecution.eqPy { a with paused_step := p }
        { a with paused_step := q } = true) := by
  constructor
  · simp [SagaExecution.eqPy, Bool.and_eq_true, decide_eq_true_eq, and_assoc]
  · intro p q
    simp [SagaExecution.eqPy]

/-- Counterexample for C3: `rolledBackPausedExecution` has
`already_rollback = true` (its rollback already completed), yet a
subsequent `execute` call with a response does not fail with a
rollback-already-done error and is not inert: it resumes the paused step,
appends it to the executed stack, invokes `TransactionManager.commit` and
finishes successfully. `execute` is guarded by the `Finished`/`Errored`
status only, never by `already_rollback`. -/
theorem execute_ignores_already_rollback :
    rolledBackPausedExecution.already_rollback = true ∧
    (SagaExecution.execute demoEnv rolledBackPausedExecution (some okResponse)).2.2
      = Except.ok (SagaContext.mk [("handle_ticket_success", "ticket")]) ∧
    (SagaExecution.execute demoEnv rolledBackPausedExecution (some okResponse)).1.status
      = SagaStatus.Finished ∧
    commitCalls
        (SagaExecution.execute demoEnv rolledBackPausedExecution (some okResponse)).2.1
      = [Event.commitTx 1 3] := by
  refine ⟨rfl, ?_, ?_, ?_⟩ <;> decide

/-- C3 as amended: once `already_rollback` is true, the `rollback` methods
(of the saga execution, and of a step execution on which something was
executed) fail with the rollback-already-done error and perform no work;
the `execute` methods are not guarded by the flag. -/
theorem already_rollback_blocks_rollback_only (env : Env) (e : SagaExecution)
    (s : SagaStepExecution) (ctx : SagaContext)
    (he : e.already_rollback = true)
    (hs : s.already_rollback = true) (hst : s.status ≠ SagaStepStatus.Created) :
    SagaExecution.rollback env e
      = (e, [], some (SagaError.rollbackExecution RollbackMsg.sagaAlreadyRolledBack)) ∧
    SagaStepExecution.rollback env s ctx
      = (s, [], Except.error (SagaError.rollbackStep RollbackMsg.alreadyRolledBack)) := by
  constructor
  · simp [SagaExecution.rollback, he]
  · cases s with
    | remote d st ar =>
      simp only [SagaStepExecution.already_rollback] at hs
      simp only [SagaStepExecution.status] at hst
      simp [SagaStepExecution.rollback, hst, hs]
    | localStep d st ar =>
      simp only [SagaStepExecution.already_rollback] at hs
      simp only [SagaStepExecution.status] at hst
      simp [SagaStepExecution.rollback, hst, hs]
    | conditional d st ar n =>
      simp only [SagaStepExecution.already_rollback] at hs
      simp only [SagaStepExecution.status] at hst
      simp [SagaStepExecution.rollback, hst, hs]

/-- Witness for the amended C3 at a rolled-back execution and a
rolled-back remote step. -/
theorem already_rollback_blocks_rollback_only_witness :
    SagaExecution.rollback demoEnv rolledBackPausedExecution
      = (rolledBackPausedExecution, [],
          some (SagaError.rollbackExecution RollbackMsg.sagaAlreadyRolledBack)) ∧
    SagaStepExecution.rollback demoEnv
        (SagaStepExecution.remote orderStep SagaStepStatus.Finished true) emptyCtx
      = (SagaStepExecution.remote orderStep SagaStepStatus.Finished true, [],
          Except.error (SagaError.rollbackStep RollbackMsg.alreadyRolledBack)) :=
  already_rollback_blocks_rollback_only demoEnv rolledBackPausedExecution
    (SagaStepExecution.remote orderStep SagaStepStatus.Finished true) emptyCtx
    rfl rfl (by decide)

/-- Counterexample for C8: in `cascadeExecution` the paused step's
`on_success` handler fails; its compensation runs exactly once, inside the
step (the single `send_delete_ticket` publication), but the parent saga's
reverse walk performs exactly one rollback attempt — index 0, the
previously executed step — and never revisits the failing step, because a
failing step is not appended to `executed_steps` (the executed stack still
has length 1 afterwards). The claimed second, no-op pass over the failing
step does not happen (and a second pass would raise, not no-op, since the
per-step guard raises `SagaRollbackExecutionStepException`). -/
theorem rollback_cascade_not_revisited :
    (SagaExecution.execute demoEnv cascadeExecution (some okResponse)).2.1
      = [Event.send ("send_delete_ticket"), Event.stepRollback 0 false,
          Event.send ("send_delete_order"), Event.rejectTx 8] ∧
    rollbackAttempts
        (SagaExecution.execute demoEnv cascadeExecution (some okResponse)).2.1 = [0] ∧
    (SagaExecution.execute demoEnv cascadeExecution
        (some okResponse)).1.executed_steps.length = 1 ∧
    (SagaExecution.execute demoEnv cascadeExecution (some okResponse)).1.status
      = SagaStatus.Errored := by
  refine ⟨?_, ?_, ?_, ?_⟩ <;> decide

/-- C8 as amended: when a remote step's `on_success` handler (on a
`SUCCESS` response) or its `on_error` handler (on an `ERROR` response)
fails, the step's compensation is run once inside the step; the failing
step is not appended to `executed_steps`, so the parent saga's reverse
rollback walk covers exactly the previously executed steps (each
attempted once, in reverse order) and does not revisit the failing step;
the compensation's effect therefore occurs exactly once for that step. -/
theorem rollback_cascade_once (env : Env) (e : SagaExecution) (d : RemoteSagaStep)
    (r : SagaResponse) (op : SagaOperation)
    (har : e.already_rollback = false)
    (hreq : (requestExec env d.on_failure e.context).2 = none)
    (hcase :
      (r.status = ResponseStatus.success ∧ d.on_success = some op ∧
        env.response op e.context r = none) ∨
      (r.status = ResponseStatus.error ∧ d.on_error = some op ∧
        env.response op e.context r = none)) :
    ∃ walkEvs,
      (SagaExecution.executeOne env e
          (SagaStepExecution.remote d SagaStepStatus.PausedByOnExecute false)
          (some r)).2.1
        = (requestExec env d.on_failure e.context).1 ++
            (walkEvs ++ [Event.rejectTx e.uuid]) ∧
      rollbackAttempts walkEvs = (List.range e.executed_steps.length).reverse ∧
      (SagaExecution.executeOne env e
          (SagaStepExecution.remote d SagaStepStatus.PausedByOnExecute false)
          (some r)).1.executed_steps.length = e.executed_steps.length := by
  rcases hq : requestExec env d.on_failure e.context with ⟨reqEvs, reqExc⟩
  have hqe : reqExc = none := by
    have h0 : (reqEvs, reqExc).2 = none := hq ▸ hreq
    simpa using h0
  subst hqe
  have hstep : ∃ stE, SagaStepExecution.execute env
      (SagaStepExecution.remote d SagaStepStatus.PausedByOnExecute false) e.context
      (some r)
      = (SagaStepExecution.remote d stE true, reqEvs,
          Except.error SagaError.failedStep) := by
    rcases hcase with ⟨hr, hos, hresp⟩ | ⟨hr, hoe, hresp⟩
    · exact ⟨SagaStepStatus.ErroredOnSuccess, by
        simp [SagaStepExecution.execute, remoteExecuteOnExecute, hr, hos, hresp,
          responseExec, SagaStepExecution.rollback, hq]⟩
    · exact ⟨SagaStepStatus.ErroredOnError, by
        simp [SagaStepExecution.execute, remoteExecuteOnExecute, hr, hoe, hresp,
          responseExec, SagaStepExecution.rollback, hq]⟩
  obtain ⟨stE, hstep⟩ := hstep
  rcases hW : rollbackWalk env e.executed_steps 0 e.context with
    ⟨steps', ctx', wEvs, raised⟩
  have hlen := rollbackWalk_length env e.executed_steps 0 e.context
  rw [hW] at hlen
  have hlen' : steps'.length = e.executed_steps.length := hlen
  have hA := rollbackWalk_attempts env e.executed_steps 0 e.context
  rw [hW] at hA
  have hA' : rollbackAttempts wEvs = (List.range e.executed_steps.length).reverse := by
    rw [List.range_eq_range']
    exact hA
  refine ⟨wEvs, ?_, hA', ?_⟩ <;>
    · simp only [SagaExecution.executeOne, hstep, SagaExecution.rollback, har, hW]
      cases raised <;> simp [hlen']

/-- Witness for the amended C8 at `cascadeExecution` under `demoEnv`,
exercising the `on_error`-failure case. -/
theorem rollback_cascade_once_witness :
    ∃ walkEvs,
      (SagaExecution.executeOne demoEnv cascadeExecution
          (SagaStepExecution.remote boomErrStep SagaStepStatus.PausedByOnExecute false)
          (some errResponse)).2.1
        = (requestExec demoEnv boomErrStep.on_failure cascadeExecution.context).1 ++
            (walkEvs ++ [Event.rejectTx cascadeExecution.uuid]) ∧
      rollbackAttempts walkEvs
        = (List.range cascadeExecution.executed_steps.length).reverse ∧
      (SagaExecution.executeOne demoEnv cascadeExecution
          (SagaStepExecution.remote boomErrStep SagaStepStatus.PausedByOnExecute false)
          (some errResponse)).1.executed_steps.length
        = cascadeExecution.executed_steps.length :=
  rollback_cascade_once demoEnv cascadeExecution boomErrStep errResponse
    { callback := "boom" } rfl (by decide) (Or.inr ⟨rfl, rfl, by decide⟩)

/-- Python equality of executions is reflexive. -/
theorem eqPy_refl (e : SagaExecution) : SagaExecution.eqPy e e = true := by
  simp [SagaExecution.eqPy]

theorem step_from_raw_raw_defn (s : SagaStepExecution) :
    SagaStepExecution.from_raw s.raw (some s.defn) = some s := by
  cases s <;>
    simp [SagaStepExecution.raw, SagaStepExecution.from_raw, SagaStepExecution.defn,
      sagaStepStatus_roundtrip]

theorem step_from_raw_raw (s : SagaStepExecution) :
    SagaStepExecution.from_raw s.raw none = some s := by
  cases s <;>
    simp [SagaStepExecution.raw, SagaStepExecution.from_raw,
      sagaStepStatus_roundtrip]

theorem fromRawSteps_roundtrip :
    ∀ (steps : List SagaStepExecution) (defs : List SagaStep),
      defs.take steps.length = steps.map SagaStepExecution.defn →
      fromRawSteps defs (steps.map SagaStepExecution.raw) = some steps := by
  intro steps
  induction steps with
  | nil =>
    intro defs h
    cases defs <;> rfl
  | cons s rest ih =>
    intro defs h
    cases defs with
    | nil => simp at h
    | cons d ds =>
      simp only [List.length_cons, List.take_succ_cons, List.map_cons,
        List.cons.injEq] at h
      obtain ⟨hd, hds⟩ := h
      subst hd
      simp [fromRawSteps, step_from_raw_raw_defn, ih ds hds]

/-- C2: for every execution of a committed saga whose executed steps match
the definition prefix (invariant I1, true of every reachable execution),
`from_raw` applied to `raw` reconstructs the very same execution — in
particular an execution equal to the original under the class's Python
equality. -/
theorem from_raw_roundtrip (e : SagaExecution)
    (hc : e.definition.committed = true)
    (hpre : e.definition.steps.take e.executed_steps.length
      = e.executed_steps.map SagaStepExecution.defn) :
    SagaExecution.from_raw e.raw = some e ∧
    ∀ e', SagaExecution.from_raw e.raw = some e' → SagaExecution.eqPy e' e = true := by
  have h1 : SagaExecution.from_raw e.raw = some e := by
    obtain ⟨defn, uid, ctx, st, ex, ps, ar, usr⟩ := e
    simp only at hpre hc
    rcases ps with _ | p
    · simp [SagaExecution.from_raw, SagaExecution.raw, Saga.validate, hc,
        sagaStatus_roundtrip, fromRawSteps_roundtrip ex defn.steps hpre,
        SagaContext.avro_str]
    · simp [SagaExecution.from_raw, SagaExecution.raw, Saga.validate, hc,
        sagaStatus_roundtrip, step_from_raw_raw,
        fromRawSteps_roundtrip ex defn.steps hpre, SagaContext.avro_str]
  refine ⟨h1, fun e' h' => ?_⟩
  rw [h1, Option.some.injEq] at h'
  rw [h']
  exact eqPy_refl e'

/-- Witness for C2 at `snapshotExecution` (one executed step, one paused
step, a user set). -/
theorem from_raw_roundtrip_witness :
    SagaExecution.from_raw snapshotExecution.raw = some snapshotExecution :=
  (from_raw_roundtrip snapshotExecution (by decide) (by decide)).1

theorem rollback_fields (env : Env) (e : SagaExecution) :
    (SagaExecution.rollback env e).1.paused_step = e.paused_step ∧
    (SagaExecution.rollback env e).1.status = e.status ∧
    (SagaExecution.rollback env e).1.definition = e.definition ∧
    (SagaExecution.rollback env e).1.uuid = e.uuid ∧
    (SagaExecution.rollback env e).1.executed_steps.length
      = e.executed_steps.length := by
  unfold SagaExecution.rollback
  split
  · exact ⟨rfl, rfl, rfl, rfl, rfl⟩
  · rcases hW : rollbackWalk env e.executed_steps 0 e.context with
      ⟨steps', ctx', wEvs, raised⟩
    have hlen := rollbackWalk_length env e.executed_steps 0 e.context
    rw [hW] at hlen
    have hlen' : steps'.length = e.executed_steps.length := hlen
    simp only [hW]
    cases raised <;> simp [hlen']

theorem commitCalls_rollback (env : Env) (e : SagaExecution) :
    commitCalls (SagaExecution.rollback env e).2.1 = [] := by
  unfold SagaExecution.rollback
  split
  · rfl
  · rcases hW : rollbackWalk env e.executed_steps 0 e.context with
      ⟨steps', ctx', wEvs, raised⟩
    have hcs := rollbackWalk_commitCalls env e.executed_steps 0 e.context
    rw [hW] at hcs
    have hcs' : commitCalls wEvs = [] := hcs
    simp only [hW]
    cases raised <;>
      · simp only [Bool.false_eq_true, if_false, if_true]
        rw [commitCalls_append, hcs']
        rfl

theorem executeOne_uuid (env : Env) (e : SagaExecution) (step : SagaStepExecution)
    (resp : Option SagaResponse) :
    (SagaExecution.executeOne env e step resp).1.uuid = e.uuid := by
  unfold SagaExecution.executeOne
  rcases hse : SagaStepExecution.execute env step e.context resp with ⟨step', evs, rres⟩
  cases rres with
  | ok ctx' => rfl
  | error err =>
    cases err with
    | failedStep =>
      rcases hrb : SagaExecution.rollback env e with ⟨e₁, evs₂, rb⟩
      have hu := (rollback_fields env e).2.2.2.1
      rw [hrb] at hu
      have hu' : e₁.uuid = e.uuid := hu
      simp only [hrb]
      cases rb <;> simp [hu']
    | pausedStep => rfl
    | alreadyExecuted => rfl
    | rollbackStep m => rfl
    | rollbackExecution m => rfl
    | failedCommitCallback => rfl

theorem commitCalls_executeOne (env : Env) (e : SagaExecution)
    (step : SagaStepExecution) (resp : Option SagaResponse) :
    commitCalls (SagaExecution.executeOne env e step resp).2.1 = [] := by
  have hs := onlySends_step_execute env step e.context resp
  unfold SagaExecution.executeOne
  rcases hse : SagaStepExecution.execute env step e.context resp with ⟨step', evs, rres⟩
  rw [hse] at hs
  have hs' : commitCalls evs = [] := commitCalls_of_onlySends evs hs
  cases rres with
  | ok ctx' => simpa using hs'
  | error err =>
    cases err with
    | failedStep =>
      rcases hrb : SagaExecution.rollback env e with ⟨e₁, evs₂, rb⟩
      have hr := commitCalls_rollback env e
      rw [hrb] at hr
      have hr' : commitCalls evs₂ = [] := hr
      simp only [hrb]
      cases rb <;> simp [commitCalls_append, hs', hr']
    | pausedStep => simpa using hs'
    | alreadyExecuted => simpa using hs'
    | rollbackStep m => simpa using hs'
    | rollbackExecution m => simpa using hs'
    | failedCommitCallback => simpa using hs'

theorem executeForward_uuid (env : Env) :
    ∀ (ds : List SagaStep) (e : SagaExecution),
      (SagaExecution.executeForward env e ds).1.uuid = e.uuid := by
  intro ds
  induction ds with
  | nil => intro e; rfl
  | cons d rest ih =>
    intro e
    rcases h1 : SagaExecution.executeOne env e (SagaStepExecution.from_definition d)
        none with ⟨e₁, evs₁, exc₁⟩
    have hu := executeOne_uuid env e (SagaStepExecution.from_definition d) none
    rw [h1] at hu
    have hu' : e₁.uuid = e.uuid := hu
    unfold SagaExecution.executeForward
    simp only [h1]
    cases exc₁ with
    | some exc => simpa using hu'
    | none =>
      rcases h2 : SagaExecution.executeForward env e₁ rest with ⟨e₂, evs₂, exc₂⟩
      have h3 := ih e₁
      rw [h2] at h3
      have h3' : e₂.uuid = e₁.uuid := h3
      simp [h2, h3', hu']

theorem commitCalls_executeForward (env : Env) :
    ∀ (ds : List SagaStep) (e : SagaExecution),
      commitCalls (SagaExecution.executeForward env e ds).2.1 = [] := by
  intro ds
  induction ds with
  | nil => intro e; rfl
  | cons d rest ih =>
    intro e
    rcases h1 : SagaExecution.executeOne env e (SagaStepExecution.from_definition d)
        none with ⟨e₁, evs₁, exc₁⟩
    have hc1 := commitCalls_executeOne env e (SagaStepExecution.from_definition d) none
    rw [h1] at hc1
    have hc1' : commitCalls evs₁ = [] := hc1
    unfold SagaExecution.executeForward
    simp only [h1]
    cases exc₁ with
    | some exc => simpa using hc1'
    | none =>
      rcases h2 : SagaExecution.executeForward env e₁ rest with ⟨e₂, evs₂, exc₂⟩
      have h3 := ih e₁
      rw [h2] at h3
      have h3' : commitCalls evs₂ = [] := h3
      simp [h2, commitCalls_append, h3', hc1']

theorem executeCommit_ok (env : Env) (e e₃ : SagaExecution) (evs₃ : List Event)
    (h : SagaExecution.executeCommit env e = (e₃, evs₃, none)) :
    evs₃ = [Event.commitTx (countRemote e.executed_steps) e.uuid] ∧
    e₃.executed_steps = e.executed_steps ∧ e₃.uuid = e.uuid := by
  unfold SagaExecution.executeCommit at h
  rcases hlr : localRun env e.definition.commit_operation e.context with err | cctx
  · rw [hlr] at h
    rcases hrb : SagaExecution.rollback env e with ⟨e₁, evs₁, rb⟩
    simp only [hrb] at h
    cases rb <;> simp at h
  · rw [hlr] at h
    have hevs : [Event.commitTx (countRemote e.executed_steps) e.uuid] = evs₃ :=
      congrArg (fun t => t.2.1) h
    have hex : e.executed_steps = e₃.executed_steps :=
      congrArg (fun t => t.1.executed_steps) h
    have hu : e.uuid = e₃.uuid := congrArg (fun t => t.1.uuid) h
    exact ⟨hevs.symm, hex.symm, hu.symm⟩

/-- C9: when `execute` completes successfully (the saga's forward run and
commit both succeed), `TransactionManager.commit` is invoked exactly once,
with the execution's uuid and with count equal to the number of executed
steps that are remote step executions; local and conditional step
executions contribute nothing to the count, and the remote steps run
inside a conditional's inner execution (its `innerRemotes`) contribute
nothing either. -/
theorem commit_counts_remote (env : Env) (e e' : SagaExecution)
    (resp : Option SagaResponse) (evs : List Event) (ctx' : SagaContext)
    (hnE : e.status ≠ SagaStatus.Errored)
    (heq : SagaExecution.execute env e resp = (e', evs, Except.ok ctx')) :
    commitCalls evs = [Event.commitTx (countRemote e'.executed_steps) e.uuid] ∧
    (∀ (l : List SagaStepExecution) (d : LocalSagaStep) (st : SagaStepStatus)
      (ar : Bool), countRemote (SagaStepExecution.localStep d st ar :: l)
        = countRemote l) ∧
    (∀ (l : List SagaStepExecution) (d : ConditionalSagaStep) (st : SagaStepStatus)
      (ar : Bool) (n m : Nat),
      countRemote (SagaStepExecution.conditional d st ar n :: l) = countRemote l ∧
      countRemote (SagaStepExecution.conditional d st ar n :: l)
        = countRemote (SagaStepExecution.conditional d st ar m :: l)) ∧
    (∀ (l : List SagaStepExecution) (d : RemoteSagaStep) (st : SagaStepStatus)
      (ar : Bool), countRemote (SagaStepExecution.remote d st ar :: l)
        = countRemote l + 1) := by
  refine ⟨?_, fun l d st ar => rfl, fun l d st ar n m => ⟨rfl, rfl⟩,
    fun l d st ar => rfl⟩
  by_cases hF : e.status = SagaStatus.Finished
  · simp [SagaExecution.execute, hF] at heq
  · simp only [SagaExecution.execute, if_neg hF, if_neg hnE] at heq
    rcases hp : e.paused_step with _ | ps
    · simp only [hp] at heq
      rcases hfw : SagaExecution.executeForward env
          { e with status := SagaStatus.Running, paused_step := none }
          (e.definition.steps.drop e.executed_steps.length) with ⟨e₂, evs₂, exc₂⟩
      have hfu := executeForward_uuid env
        (e.definition.steps.drop e.executed_steps.length)
        { e with status := SagaStatus.Running, paused_step := none }
      rw [hfw] at hfu
      have hfu' : e₂.uuid = e.uuid := hfu
      have hfc := commitCalls_executeForward env
        (e.definition.steps.drop e.executed_steps.length)
        { e with status := SagaStatus.Running, paused_step := none }
      rw [hfw] at hfc
      have hfc' : commitCalls evs₂ = [] := hfc
      simp only [hfw] at heq
      cases exc₂ with
      | some exc => simp at heq
      | none =>
        rcases hcm : SagaExecution.executeCommit env e₂ with ⟨e₃, evs₃, exc₃⟩
        simp only [hcm] at heq
        cases exc₃ with
        | some exc => simp at heq
        | none =>
          obtain ⟨hevs₃, hex₃, hu₃⟩ := executeCommit_ok env e₂ e₃ evs₃ hcm
          have hevs : evs₂ ++ evs₃ = evs := congrArg (fun t => t.2.1) heq
          have he' : ({ e₃ with status := SagaStatus.Finished } : SagaExecution) = e' :=
            congrArg (fun t => t.1) heq
          have hex' : e'.executed_steps = e₂.executed_steps := by
            rw [← he']
            exact hex₃
          rw [← hevs, commitCalls_append, hfc', hevs₃, hex', hfu']
          rfl
    · simp only [hp] at heq
      rcases ho : SagaExecution.executeOne env
          { e with status := SagaStatus.Running, paused_step := some ps } ps resp with
        ⟨e₁, evs₁, exc₁⟩
      have hou := executeOne_uuid env
        { e with status := SagaStatus.Running, paused_step := some ps } ps resp
      rw [ho] at hou
      have hou' : e₁.uuid = e.uuid := hou
      have hoc := commitCalls_executeOne env
        { e with status := SagaStatus.Running, paused_step := some ps } ps resp
      rw [ho] at hoc
      have hoc' : commitCalls evs₁ = [] := hoc
      simp only [ho] at heq
      cases exc₁ with
      | some exc => simp at heq
      | none =>
        set E : SagaExecution :=
          if e₁.status ≠ SagaStatus.Paused then { e₁ with paused_step := none } else e₁
          with hE
        have hEu : E.uuid = e₁.uuid := by
          rw [hE]
          split <;> rfl
        rcases hfw : SagaExecution.executeForward env E
            (E.definition.steps.drop E.executed_steps.length) with ⟨e₂, evs₂, exc₂⟩
        have hfu := executeForward_uuid env
          (E.definition.steps.drop E.executed_steps.length) E
        rw [hfw] at hfu
        have hfu' : e₂.uuid = E.uuid := hfu
        have hfc := commitCalls_executeForward env
          (E.definition.steps.drop E.executed_steps.length) E
        rw [hfw] at hfc
        have hfc' : commitCalls evs₂ = [] := hfc
        simp only [hfw] at heq
        cases exc₂ with
        | some exc => simp at heq
        | none =>
          rcases hcm : SagaExecution.executeCommit env e₂ with ⟨e₃, evs₃, exc₃⟩
          simp only [hcm] at heq
          cases exc₃ with
          | some exc => simp at heq
          | none =>
            obtain ⟨hevs₃, hex₃, hu₃⟩ := executeCommit_ok env e₂ e₃ evs₃ hcm
            have hevs : evs₁ ++ evs₂ ++ evs₃ = evs := congrArg (fun t => t.2.1) heq
            have he' : ({ e₃ with status := SagaStatus.Finished } : SagaExecution)
                = e' := congrArg (fun t => t.1) heq
            have hex' : e'.executed_steps = e₂.executed_steps := by
              rw [← he']
              exact hex₃
            rw [← hevs, commitCalls_append, commitCalls_append, hoc', hfc', hevs₃,
              hex', hfu', hEu, hou']
            rfl

theorem getElem?_of_drop_cons {α : Type _} (l : List α) (n : Nat) (d : α)
    (ds : List α) (h : l.drop n = d :: ds) : l[n]? = some d := by
  have h0 := List.getElem?_drop l n 0
  rw [h] at h0
  simpa using h0.symm

theorem drop_succ_of_drop_cons {α : Type _} (l : List α) (n : Nat) (d : α)
    (ds : List α) (h : l.drop n = d :: ds) : l.drop (n + 1) = ds := by
  have h1 : List.drop 1 (List.drop n l) = List.drop (n + 1) l := List.drop_drop 1 n l
  rw [← h1, h]
  rfl

theorem from_definition_defn (d : SagaStep) :
    (SagaStepExecution.from_definition d).defn = d := by
  cases d <;> rfl

theorem step_rollback_defn (env : Env) (s : SagaStepExecution) (ctx : SagaContext) :
    (SagaStepExecution.rollback env s ctx).1.defn = s.defn := by
  cases s with
  | remote d st ar =>
    simp only [SagaStepExecution.rollback]
    split
    · rfl
    · split
      · rfl
      · split <;> rfl
  | localStep d st ar =>
    simp only [SagaStepExecution.rollback]
    split
    · rfl
    · split
      · rfl
      · split <;> rfl
  | conditional d st ar n =>
    simp only [SagaStepExecution.rollback]
    split
    · rfl
    · split
      · rfl
      · split <;> rfl

theorem step_execute_defn (env : Env) (s : SagaStepExecution) (ctx : SagaContext)
    (resp : Option SagaResponse) :
    (SagaStepExecution.execute env s ctx resp).1.defn = s.defn := by
  cases s with
  | remote d st ar =>
    have h1 := step_rollback_defn env
      (SagaStepExecution.remote d SagaStepStatus.ErroredOnSuccess ar) ctx
    have h2 := step_rollback_defn env
      (SagaStepExecution.remote d SagaStepStatus.ErroredOnError ar) ctx
    simp only [SagaStepExecution.execute]
    split
    · rfl
    · split
      · rfl
      · split
        · rfl
        · split
          · split
            · rfl
            · split <;> (rename_i heq; rw [heq] at h1; exact h1)
          · split
            · rfl
            · split <;> (rename_i heq; rw [heq] at h2; exact h2)
  | localStep d st ar =>
    simp only [SagaStepExecution.execute]
    split
    · split <;> rfl
    · rfl
  | conditional d st ar n =>
    simp only [SagaStepExecution.execute]
    split
    · split <;> rfl
    · rfl

/-- An execution with no paused step and a status other than `Paused`
satisfies invariant I2. -/
theorem pausedInv_of_none {e : SagaExecution} (hp : e.paused_step = none)
    (hs : e.status ≠ SagaStatus.Paused) : pausedInv e := by
  constructor
  · simp [hp, hs]
  · intro ps hps
    rw [hp] at hps
    exact absurd hps (by simp)

theorem executeCommit_fields (env : Env) (e : SagaExecution) :
    (SagaExecution.executeCommit env e).1.paused_step = e.paused_step ∧
    ((SagaExecution.executeCommit env e).1.status = e.status ∨
      (SagaExecution.executeCommit env e).1.status = SagaStatus.Errored) := by
  unfold SagaExecution.executeCommit
  rcases hlr : localRun env e.definition.commit_operation e.context with err | cctx
  · rcases hrb : SagaExecution.rollback env e with ⟨e₁, evs₁, rb⟩
    have hf := rollback_fields env e
    rw [hrb] at hf
    have hf1 : e₁.paused_step = e.paused_step := hf.1
    have hf2 : e₁.status = e.status := hf.2.1
    simp only [hlr, hrb]
    cases rb <;> simp [hf1, hf2]
  · simp [hlr]

/-- Invariant I2 at the end of the commit phase, for an execution that
enters it running with no paused step. -/
theorem commit_phase_pausedInv (env : Env) (e₂ : SagaExecution)
    (hp₂ : e₂.paused_step = none) (hs₂ : e₂.status = SagaStatus.Running) :
    pausedInv (SagaExecution.executeCommit env e₂).1 ∧
    pausedInv { (SagaExecution.executeCommit env e₂).1 with
      status := SagaStatus.Finished } := by
  obtain ⟨hcf1, hcf2⟩ := executeCommit_fields env e₂
  constructor
  · apply pausedInv_of_none
    · rw [hcf1, hp₂]
    · rcases hcf2 with hA | hB
      · rw [hA, hs₂]
        decide
      · rw [hB]
        decide
  · apply pausedInv_of_none
    · show (SagaExecution.executeCommit env e₂).1.paused_step = none
      rw [hcf1, hp₂]
    · show ¬ SagaStatus.Finished = SagaStatus.Paused
      decide

/-- Invariant I2 across the forward phase: starting from a running
execution with no paused step whose pending steps are exactly the
definition steps after the executed prefix, the result satisfies I2; and
if the phase raised nothing the result is still running with no paused
step. -/
theorem executeForward_inv (env : Env) :
    ∀ (pending : List SagaStep) (e : SagaExecution),
      e.paused_step = none → e.status = SagaStatus.Running →
      e.definition.steps.drop e.executed_steps.length = pending →
      pausedInv (SagaExecution.executeForward env e pending).1 ∧
      ((SagaExecution.executeForward env e pending).2.2 = none →
        (SagaExecution.executeForward env e pending).1.paused_step = none ∧
        (SagaExecution.executeForward env e pending).1.status
          = SagaStatus.Running) := by
  intro pending
  induction pending with
  | nil =>
    intro e hp hs _
    have hsp : ¬ e.status = SagaStatus.Paused := by rw [hs]; decide
    exact ⟨pausedInv_of_none hp hsp, fun _ => ⟨hp, hs⟩⟩
  | cons d ds ih =>
    intro e hp hs hpend
    have hsp : ¬ e.status = SagaStatus.Paused := by rw [hs]; decide
    rcases hse : SagaStepExecution.execute env (SagaStepExecution.from_definition d)
        e.context none with ⟨step', evs, rres⟩
    have hdefn : step'.defn = d := by
      have h0 := step_execute_defn env (SagaStepExecution.from_definition d)
        e.context none
      rw [hse] at h0
      have h0' : step'.defn = (SagaStepExecution.from_definition d).defn := h0
      rw [h0', from_definition_defn]
    simp only [SagaExecution.executeForward, SagaExecution.executeOne, hse]
    cases rres with
    | ok ctx' =>
      have hnext : e.definition.steps.drop
          (e.executed_steps ++ [step']).length = ds := by
        have hd := drop_succ_of_drop_cons e.definition.steps
          e.executed_steps.length d ds hpend
        simpa using hd
      have ihres := ih
        ({ e with context := ctx', executed_steps := e.executed_steps ++ [step'] })
        hp hs hnext
      rcases hfw : SagaExecution.executeForward env
          ({ e with context := ctx', executed_steps := e.executed_steps ++ [step'] })
          ds with ⟨e₂, evs₂, exc₂⟩
      rw [hfw] at ihres
      simp only [hfw]
      exact ihres
    | error err =>
      cases err with
      | pausedStep =>
        refine ⟨⟨by simp, fun ps hps => ?_⟩, fun hcon => absurd hcon (by simp)⟩
        have hps' : step' = ps := by
          have : some step' = some ps := hps
          simpa using this
        subst hps'
        have hidx : e.definition.steps[e.executed_steps.length]? = some d :=
          getElem?_of_drop_cons e.definition.steps e.executed_steps.length d ds hpend
        rw [hidx, hdefn]
      | failedStep =>
        rcases hrb : SagaExecution.rollback env e with ⟨e₁, evs₂, rb⟩
        have hf := rollback_fields env e
        rw [hrb] at hf
        have hf1 : e₁.paused_step = e.paused_step := hf.1
        have hf2 : e₁.status = e.status := hf.2.1
        simp only [hrb]
        cases rb with
        | none =>
          refine ⟨pausedInv_of_none ?_ ?_, fun hcon => absurd hcon (by simp)⟩
          · show e₁.paused_step = none
            rw [hf1, hp]
          · show ¬ SagaStatus.Errored = SagaStatus.Paused
            decide
        | some exc =>
          refine ⟨pausedInv_of_none ?_ ?_, fun hcon => absurd hcon (by simp)⟩
          · show e₁.paused_step = none
            rw [hf1, hp]
          · show ¬ e₁.status = SagaStatus.Paused
            rw [hf2, hs]
            decide
      | alreadyExecuted =>
        exact ⟨pausedInv_of_none hp hsp, fun hcon => absurd hcon (by simp)⟩
      | rollbackStep m =>
        exact ⟨pausedInv_of_none hp hsp, fun hcon => absurd hcon (by simp)⟩
      | rollbackExecution m =>
        exact ⟨pausedInv_of_none hp hsp, fun hcon => absurd hcon (by simp)⟩
      | failedCommitCallback =>
        exact ⟨pausedInv_of_none hp hsp, fun hcon => absurd hcon (by simp)⟩

/-- C5: invariant I2 — after every externally observable transition (the
normal or raising return of `execute`, and of `rollback`), the paused step
exists iff the status is `Paused`, and it corresponds to the next pending
definition step `definition.steps[len(executed_steps)]`; in particular the
resume phase clears `paused_step` exactly when the resumed step did not
re-pause, since the result again satisfies the equivalence. -/
theorem paused_step_invariant (env : Env) (e : SagaExecution)
    (resp : Option SagaResponse) (h : pausedInv e) :
    pausedInv (SagaExecution.execute env e resp).1 ∧
    pausedInv (SagaExecution.rollback env e).1 := by
  obtain ⟨h1, h2⟩ := h
  refine ⟨?_, ?_⟩
  case intro.refine_2 =>
    obtain ⟨hf1, hf2, hf3, _, hf5⟩ := rollback_fields env e
    constructor
    · rw [hf1, hf2]
      exact h1
    · intro ps hps
      rw [hf1] at hps
      rw [hf3, hf5]
      exact h2 ps hps
  case intro.refine_1 =>
  by_cases hF : e.status = SagaStatus.Finished
  · have heqF : SagaExecution.execute env e resp
        = (e, [], Except.error SagaError.alreadyExecuted) := by
      simp [SagaExecution.execute, hF]
    rw [heqF]
    exact ⟨h1, h2⟩
  by_cases hE : e.status = SagaStatus.Errored
  · cases resp with
    | none =>
      have heqE : SagaExecution.execute env e none
          = (e, [], Except.error SagaError.alreadyExecuted) := by
        simp [SagaExecution.execute, hE]
      rw [heqE]
      exact ⟨h1, h2⟩
    | some r =>
      have heqE : SagaExecution.execute env e (some r)
          = (e, [], Except.ok e.context) := by
        simp [SagaExecution.execute, hE]
      rw [heqE]
      exact ⟨h1, h2⟩
  rcases hex : SagaExecution.execute env e resp with ⟨e', evs, res⟩
  show pausedInv e'
  simp only [SagaExecution.execute, if_neg hF, if_neg hE] at hex
  rcases hp : e.paused_step with _ | ps
  · simp only [hp] at hex
    rcases hfw : SagaExecution.executeForward env
        ({ e with status := SagaStatus.Running, paused_step := none })
        (e.definition.steps.drop e.executed_steps.length) with ⟨e₂, evs₂, exc₂⟩
    have hinv := executeForward_inv env
      (e.definition.steps.drop e.executed_steps.length)
      ({ e with status := SagaStatus.Running, paused_step := none }) rfl rfl rfl
    rw [hfw] at hinv
    obtain ⟨hinv1, hinv2⟩ := hinv
    simp only [hfw] at hex
    cases exc₂ with
    | some exc =>
      have he' : e₂ = e' := congrArg (fun t => t.1) hex
      rw [← he']
      exact hinv1
    | none =>
      obtain ⟨hp₂, hs₂⟩ := hinv2 rfl
      obtain ⟨hcp1, hcp2⟩ := commit_phase_pausedInv env e₂ hp₂ hs₂
      rcases hcm : SagaExecution.executeCommit env e₂ with ⟨e₃, evs₃, exc₃⟩
      rw [hcm] at hcp1 hcp2
      simp only [hcm] at hex
      cases exc₃ with
      | some exc =>
        have he' : e₃ = e' := congrArg (fun t => t.1) hex
        rw [← he']
        exact hcp1
      | none =>
        have he' : ({ e₃ with status := SagaStatus.Finished } : SagaExecution) = e' :=
          congrArg (fun t => t.1) hex
        rw [← he']
        exact hcp2
  · simp only [hp, SagaExecution.executeOne] at hex
    rcases hse : SagaStepExecution.execute env ps e.context resp with ⟨step', evs₀, rres⟩
    simp only [hse] at hex
    cases rres with
    | ok ctx' =>
      rw [if_pos (show SagaStatus.Running ≠ SagaStatus.Paused by decide)] at hex
      rcases hfw : SagaExecution.executeForward env
          { e with
            status := SagaStatus.Running
            paused_step := none
            context := ctx'
            executed_steps := e.executed_steps ++ [step'] }
          (e.definition.steps.drop (e.executed_steps ++ [step']).length) with
        ⟨e₂, evs₂, exc₂⟩
      have hinv := executeForward_inv env
        (e.definition.steps.drop (e.executed_steps ++ [step']).length)
        ({ e with
          status := SagaStatus.Running
          paused_step := none
          context := ctx'
          executed_steps := e.executed_steps ++ [step'] })
        rfl rfl rfl
      rw [hfw] at hinv
      obtain ⟨hinv1, hinv2⟩ := hinv
      simp only [hfw] at hex
      cases exc₂ with
      | some exc =>
        have he' : e₂ = e' := congrArg (fun t => t.1) hex
        rw [← he']
        exact hinv1
      | none =>
        obtain ⟨hp₂, hs₂⟩ := hinv2 rfl
        obtain ⟨hcp1, hcp2⟩ := commit_phase_pausedInv env e₂ hp₂ hs₂
        rcases hcm : SagaExecution.executeCommit env e₂ with ⟨e₃, evs₃, exc₃⟩
        rw [hcm] at hcp1 hcp2
        simp only [hcm] at hex
        cases exc₃ with
        | some exc =>
          have he' : e₃ = e' := congrArg (fun t => t.1) hex
          rw [← he']
          exact hcp1
        | none =>
          have he' : ({ e₃ with status := SagaStatus.Finished } : SagaExecution)
              = e' := congrArg (fun t => t.1) hex
          rw [← he']
          exact hcp2
    | error err =>
      cases err with
      | pausedStep =>
        rw [if_neg (show ¬ SagaStatus.Paused ≠ SagaStatus.Paused by decide)] at hex
        have he' : ({ e with
            status := SagaStatus.Paused
            paused_step := some step' } : SagaExecution) = e' :=
          congrArg (fun t => t.1) hex
        rw [← he']
        constructor
        · simp
        · intro ps' hps'
          have hps'' : step' = ps' := by
            have h0 : some step' = some ps' := hps'
            simpa using h0
          subst hps''
          have hd := step_execute_defn env ps e.context resp
          rw [hse] at hd
          have hd' : step'.defn = ps.defn := hd
          have hidx := h2 ps hp
          show e.definition.steps[e.executed_steps.length]? = some step'.defn
          rw [hd']
          exact hidx
      | failedStep =>
        rcases hrb : SagaExecution.rollback env
            ({ e with status := SagaStatus.Running, paused_step := some ps }) with
          ⟨e₁, evs₂, rb⟩
        have hf := rollback_fields env
          ({ e with status := SagaStatus.Running, paused_step := some ps })
        rw [hrb] at hf
        have hf2 : e₁.status = SagaStatus.Running := hf.2.1
        simp only [hrb] at hex
        cases rb with
        | none =>
          rw [if_pos (show SagaStatus.Errored ≠ SagaStatus.Paused by decide)] at hex
          have he' : ({ { e₁ with status := SagaStatus.Errored } with
              paused_step := none } : SagaExecution) = e' :=
            congrArg (fun t => t.1) hex
          rw [← he']
          apply pausedInv_of_none rfl
          show ¬ SagaStatus.Errored = SagaStatus.Paused
          decide
        | some exc =>
          rw [if_pos (show e₁.status ≠ SagaStatus.Paused by rw [hf2]; decide)] at hex
          have he' : ({ e₁ with paused_step := none } : SagaExecution) = e' :=
            congrArg (fun t => t.1) hex
          rw [← he']
          apply pausedInv_of_none rfl
          show ¬ e₁.status = SagaStatus.Paused
          rw [hf2]
          decide
      | alreadyExecuted =>
        rw [if_pos (show SagaStatus.Running ≠ SagaStatus.Paused by decide)] at hex
        have he' : ({ e with
            status := SagaStatus.Running
            paused_step := none } : SagaExecution) = e' :=
          congrArg (fun t => t.1) hex
        rw [← he']
        apply pausedInv_of_none rfl
        show ¬ SagaStatus.Running = SagaStatus.Paused
        decide
      | rollbackStep m =>
        rw [if_pos (show SagaStatus.Running ≠ SagaStatus.Paused by decide)] at hex
        have he' : ({ e with
            status := SagaStatus.Running
            paused_step := none } : SagaExecution) = e' :=
          congrArg (fun t => t.1) hex
        rw [← he']
        apply pausedInv_of_none rfl
        show ¬ SagaStatus.Running = SagaStatus.Paused
        decide
      | rollbackExecution m =>
        rw [if_pos (show SagaStatus.Running ≠ SagaStatus.Paused by decide)] at hex
        have he' : ({ e with
            status := SagaStatus.Running
            paused_step := none } : SagaExecution) = e' :=
          congrArg (fun t => t.1) hex
        rw [← he']
        apply pausedInv_of_none rfl
        show ¬ SagaStatus.Running = SagaStatus.Paused
        decide
      | failedCommitCallback =>
        rw [if_pos (show SagaStatus.Running ≠ SagaStatus.Paused by decide)] at hex
        have he' : ({ e with
            status := SagaStatus.Running
            paused_step := none } : SagaExecution) = e' :=
          congrArg (fun t => t.1) hex
        rw [← he']
        apply pausedInv_of_none rfl
        show ¬ SagaStatus.Running = SagaStatus.Paused
        decide

/-- Witness for C5: a fresh execution of `demoSaga` satisfies I2 and keeps
satisfying it through `execute` and `rollback`. -/
theorem paused_step_invariant_witness :
    pausedInv (SagaExecution.execute demoEnv demoExecution none).1 ∧
    pausedInv (SagaExecution.rollback demoEnv demoExecution).1 :=
  paused_step_invariant demoEnv demoExecution none
    ⟨by decide, fun ps hps => by simp [demoExecution] at hps⟩

/-- Witness for C9: the successful resumption of
`rolledBackPausedExecution` commits exactly once with count 1. -/
theorem commit_counts_remote_witness :
    commitCalls
        (SagaExecution.execute demoEnv rolledBackPausedExecution (some okResponse)).2.1
      = [Event.commitTx
          (countRemote
            (SagaExecution.execute demoEnv rolledBackPausedExecution
              (some okResponse)).1.executed_steps)
          rolledBackPausedExecution.uuid] :=
  (commit_counts_remote demoEnv rolledBackPausedExecution
    (SagaExecution.execute demoEnv rolledBackPausedExecution (some okResponse)).1
    (some okResponse)
    (SagaExecution.execute demoEnv rolledBackPausedExecution (some okResponse)).2.1
    (SagaContext.mk [("handle_ticket_success", "ticket")])
    (by decide) (by decide)).1

end MinosSaga
